import Mathlib

/-!
Verification development for the PDF form extractor
(`pdf_form_extractor3.0.py` and the console-output parser in
`pdfextract3.0.py`).

The model is a shallow embedding of the Python code over an explicit PDF
object graph.  PDF objects as exposed by the reader library (PyPDF2
generic objects) are modelled by `PdfObj`; a `Document` is an object
table (object number to value) plus a trailer dictionary.  Python dict
access, truthiness, membership tests, iteration and indirect-reference
resolution are modelled by explicit total functions returning
`Except PdfErr` where the Python operation can raise.  All text is
modelled as `List Char` so that the console serialization and re-parsing
can be reasoned about character by character.
-/

namespace PdfExtract

/-- Characters of a Python / PDF string. -/
abbrev Str := List Char

/-- PDF object values as produced by the reader library: null, booleans,
numbers, strings, names, arrays, dictionaries, stream objects (only the
stream's dictionary part is kept, since the code never reads stream
data), and indirect references identified by an object number. -/
inductive PdfObj where
  | null
  | bool (b : Bool)
  | num (n : Int)
  | str (s : Str)
  | name (s : Str)
  | arr (xs : List PdfObj)
  | dict (es : List (Str × PdfObj))
  | stream (es : List (Str × PdfObj))
  | ref (n : Nat)
deriving Inhabited

/-- Errors a Python-level operation can raise: attribute access on an
object without that attribute, a type error (bad membership test,
indexing or iteration), a missing dictionary key, and a dangling or
cyclic indirect reference. -/
inductive PdfErr where
  | attrError
  | typeError
  | keyError
  | refNotFound
deriving Repr, DecidableEq

/-- First-match association-list lookup, the model of Python dict lookup
(a parsed PDF dictionary holds each key at most once). -/
def lookupA (es : List (Str × PdfObj)) (k : Str) : Option PdfObj :=
  match es with
  | [] => none
  | (k2, v) :: rest => if k2 = k then some v else lookupA rest k

/-- Python truthiness of a PDF object: containers and strings are truthy
when nonempty, numbers when nonzero, booleans as themselves; the
library's null object defines no boolean conversion and is truthy, and
an indirect reference is truthy. -/
def truthy : PdfObj → Bool
  | .null => true
  | .bool b => b
  | .num n => decide (n ≠ 0)
  | .str s => !s.isEmpty
  | .name s => !s.isEmpty
  | .arr xs => !xs.isEmpty
  | .dict es => !es.isEmpty
  | .stream es => !es.isEmpty
  | .ref _ => true

/-- Truthiness of an optional value (Python `None` is falsy). -/
def optTruthy : Option PdfObj → Bool
  | none => false
  | some v => truthy v

/-- Dictionary entries of a dictionary-like object; stream objects are
dictionaries in the library.  Anything else raises (the Python code
would hit an attribute or type error). -/
def entriesOf : PdfObj → Except PdfErr (List (Str × PdfObj))
  | .dict es => .ok es
  | .stream es => .ok es
  | _ => .error .attrError

/-- Python `x == s` for a string `s`: PDF text strings and names are
string subclasses and compare by their characters; every other object
compares unequal. -/
def pyEqStr (x : PdfObj) (s : Str) : Bool :=
  match x with
  | .str t => decide (t = s)
  | .name t => decide (t = s)
  | _ => false

/-- Python `opt == s` where `opt` may be `None` (`None` compares unequal
to every string). -/
def optEqStr (o : Option PdfObj) (s : Str) : Bool :=
  match o with
  | none => false
  | some x => pyEqStr x s

/-- startsL pat s is true when pat is an initial segment of s. -/
def startsL : Str → Str → Bool
  | [], _ => true
  | _ :: _, [] => false
  | a :: as, b :: bs => a = b && startsL as bs

/-- hasSub pat s is true when pat occurs contiguously inside s
(Python substring membership). -/
def hasSub (pat : Str) : Str → Bool
  | [] => pat.isEmpty
  | c :: rest => startsL pat (c :: rest) || hasSub pat rest

/-- Python `o.get(k)`: raw dictionary lookup without reference
resolution, `None` when the key is absent; raises an attribute error on
any non-dictionary object. -/
def pyGet (o : PdfObj) (k : Str) : Except PdfErr (Option PdfObj) :=
  (entriesOf o).map (fun es => lookupA es k)

/-- Python `k in o`: key membership for dictionary-like objects, element
equality for arrays, substring test for strings and names; raises a type
error otherwise (in particular on an unresolved indirect reference). -/
def pyContains (o : PdfObj) (k : Str) : Except PdfErr Bool :=
  match o with
  | .dict es => .ok (lookupA es k).isSome
  | .stream es => .ok (lookupA es k).isSome
  | .arr xs => .ok (xs.any (fun x => pyEqStr x k))
  | .str s => .ok (hasSub k s)
  | .name s => .ok (hasSub k s)
  | _ => .error .typeError

/-- Python iteration `for x in o`: arrays yield their elements,
dictionary-like objects yield their keys as strings, strings yield their
one-character substrings; other objects raise a type error. -/
def pyIter : PdfObj → Except PdfErr (List PdfObj)
  | .arr xs => .ok xs
  | .dict es => .ok (es.map (fun p => PdfObj.str p.1))
  | .stream es => .ok (es.map (fun p => PdfObj.str p.1))
  | .str s => .ok (s.map (fun c => PdfObj.str [c]))
  | .name s => .ok (s.map (fun c => PdfObj.str [c]))
  | _ => .error .typeError

/-- A document: the object table reachable through the cross-reference
structure, and the trailer dictionary. -/
structure Document where
  objects : List (Nat × PdfObj)
  trailer : List (Str × PdfObj)

/-- Lookup in the object table by object number. -/
def lookupObj (os : List (Nat × PdfObj)) (n : Nat) : Option PdfObj :=
  match os with
  | [] => none
  | (m, v) :: rest => if m = n then some v else lookupObj rest n

/-- Fuelled reference resolution: follow indirect references through the
object table until a concrete value appears; a dangling reference or a
reference cycle is a resolution failure. -/
def resolveF (d : Document) : Nat → PdfObj → Except PdfErr PdfObj
  | 0, _ => .error .refNotFound
  | fuel + 1, .ref n =>
    match lookupObj d.objects n with
    | some v => resolveF d fuel v
    | none => .error .refNotFound
  | _ + 1, o => .ok o

/-- Python `o.get_object()`: the identity on concrete objects, and full
resolution against the document's object table on an indirect
reference (the spec's Object Resolver: dangling references fail with a
not-found error, and resolution never mutates the document). -/
def getObject (d : Document) (o : PdfObj) : Except PdfErr PdfObj :=
  resolveF d (d.objects.length + 1) o

/-- Python `o[k]` on a dictionary-like object: raw lookup followed by
reference resolution (the library's dictionary item access resolves),
raising a key error when the key is absent. -/
def pyItem (d : Document) (o : PdfObj) (k : Str) : Except PdfErr PdfObj := do
  let es ← entriesOf o
  match lookupA es k with
  | none => .error .keyError
  | some raw => getObject d raw

/-! Dictionary keys and name constants used by the extractor. -/

def kRoot : Str := "/Root".data
def kAcroForm : Str := "/AcroForm".data
def kFields : Str := "/Fields".data
def kT : Str := "/T".data
def kTM : Str := "/TM".data
def kFT : Str := "/FT".data
def kV : Str := "/V".data
def kOptK : Str := "/Opt".data
def kMK : Str := "/MK".data
def kI : Str := "/I".data
def kAP : Str := "/AP".data
def kN : Str := "/N".data
def kResources : Str := "/Resources".data
def kXObject : Str := "/XObject".data
def kSubtype : Str := "/Subtype".data
def kFilter : Str := "/Filter".data
def kNames : Str := "/Names".data
def kEmbeddedFiles : Str := "/EmbeddedFiles".data
def sBtn : Str := "/Btn".data
def sImage : Str := "/Image".data

/-- Python `str(x)` on a PDF object.  Only the string and name cases are
exercised by the specification claims; the remaining cases produce the
library's representation-style text. -/
def pdfStr : PdfObj → Str
  | .str s => s
  | .name s => s
  | .num n => (toString n).data
  | .bool b => if b then "True".data else "False".data
  | .null => "NullObject".data
  | .arr _ => "[...]".data
  | .dict _ => "{...}".data
  | .stream _ => "{stream}".data
  | .ref n => "IndirectObject(".data ++ (toString n).data ++ ")".data

/-! ### The field locator (`find_field_obj`, source lines 66-78)

Locates the raw field object by name from the AcroForm `/Fields` array,
returning the first field whose `/T` entry equals the name. -/

/-- Loop body of `find_field_obj`: for each entry of the fields array,
resolve it and compare its `/T` entry with the requested name; the first
match is returned.  An entry that is not dictionary-like raises. -/
def findFieldLoop (d : Document) (fieldName : Str) :
    List PdfObj → Except PdfErr (Option PdfObj)
  | [] => .ok none
  | f :: rest => do
    let obj ← getObject d f
    let t ← pyGet obj kT
    if optEqStr t fieldName then
      .ok (some obj)
    else
      findFieldLoop d fieldName rest

/-- Model of `find_field_obj(reader, field_name)`: read the trailer's
`/Root` entry without resolution, read its `/AcroForm` entry, and scan
the resolved AcroForm's `/Fields` array (defaulting to the empty array)
for the first field named `field_name`.  Raises exactly where the Python
code would (for example when the stored catalog is an unresolved
indirect reference, whose `get` attribute access raises). -/
def find_field_obj (d : Document) (fieldName : Str) :
    Except PdfErr (Option PdfObj) := do
  let acroOpt ←
    match lookupA d.trailer kRoot with
    | none => pure none
    | some root =>
      if truthy root then pyGet root kAcroForm else pure none
  match acroOpt with
  | none => .ok none
  | some acro =>
    if !truthy acro then .ok none
    else do
      let acroObj ← getObject d acro
      let fsOpt ← pyGet acroObj kFields
      let fs := fsOpt.getD (.arr [])
      let items ← pyIter fs
      findFieldLoop d fieldName items

/-! ### The value reader (`get_value`, source lines 80-93) -/

/-- The index handed to `get_value`: the Python value is either `None`
(the library found no form) or a name-keyed dictionary of field
objects. -/
abbrev FieldsMap := List (Str × PdfObj)

/-- Model of `get_value(fields_dict, field_name)`.  Returns the field's
`/V` entry as a string; the empty string when the index is `None` (the
attribute error on `None.get` is caught), when the field is absent, when
`/V` is absent, or when reading `/V` raises. -/
def get_value (fd : Option FieldsMap) (fieldName : Str) : Str :=
  match fd with
  | none => []
  | some m =>
    match lookupA m fieldName with
    | none => []
    | some entry =>
      match pyGet entry kV with
      | .error _ => []
      | .ok none => []
      | .ok (some v) => pdfStr v

/-- Warning diagnostic emitted by `get_value`: the code logs only when
its body raises (the index is `None`, or the entry does not support
attribute access); a merely absent field or value is silent. -/
def get_value_warning (fd : Option FieldsMap) (fieldName : Str) : Option Str :=
  match fd with
  | none => some ("WARN: Could not read value for ".data ++ fieldName)
  | some m =>
    match lookupA m fieldName with
    | none => none
    | some entry =>
      match pyGet entry kV with
      | .error _ => some ("WARN: Could not read value for ".data ++ fieldName)
      | .ok _ => none

/-! ### The choice-option reader (`get_choice_options`, source lines 95-115) -/

/-- Normalization of one option entry (loop body, source lines 108-112):
a list-valued entry of length at least one contributes the string of its
first (export) element, anything else contributes its own string. -/
def optionEntryStr : PdfObj → Str
  | .arr (x :: _) => pdfStr x
  | x => pdfStr x

/-- The body of `get_choice_options` before the exception handler. -/
def get_choice_options_body (d : Document) (fieldName : Str) :
    Except PdfErr (List Str) := do
  let objOpt ← find_field_obj d fieldName
  match objOpt with
  | none => .ok []
  | some obj =>
    if !truthy obj then .ok []
    else do
      let optOpt ← pyGet obj kOptK
      match optOpt with
      | none => .ok []
      | some opt =>
        if !truthy opt then .ok []
        else do
          let items ← pyIter opt
          .ok (items.map optionEntryStr)

/-- Model of `get_choice_options(reader, field_name)`: the body with all
exceptions caught.  In the code an exception returns the options
accumulated so far; in the model every raising step occurs before any
option is accumulated, so a raise returns the empty list. -/
def get_choice_options (d : Document) (fieldName : Str) : List Str :=
  match get_choice_options_body d fieldName with
  | .ok l => l
  | .error _ => []

/-! ### The image-presence detector (`detect_image_in_button`,
source lines 117-162) -/

/-- Per-entry check of the XObject scan (source lines 148-154): resolve
the entry and test whether its `/Subtype` equals `/Image`; a raise
anywhere in the entry is swallowed and the scan continues. -/
def xobjEntryIsImage (d : Document) (x : PdfObj) : Bool :=
  match (do
    let xo ← getObject d x
    let st ← pyGet xo kSubtype
    pure (optEqStr st sImage) : Except PdfErr Bool) with
  | .ok b => b
  | .error _ => false

/-- The appearance-stream resource scan (source lines 134-154) given the
field object: read `/AP` raw, require it truthy with an `/N` key,
resolve `/N`, and when the result passes the
`isinstance(apn_obj, DecodedStreamObject)` gate walk its `/Resources`
dictionary's `/XObject` entries (resolving the XObject sub-dictionary
once if it is an indirect reference) looking for an entry of subtype
`/Image`.  PyPDF2 materializes a parsed stream as an
`EncodedStreamObject` when its stream dictionary carries a `/Filter`
entry and as a `DecodedStreamObject` only when it carries none — the
two are sibling classes — so the isinstance gate admits exactly the
stream objects whose dictionary has no `/Filter` key. -/
def apScan (d : Document) (obj : PdfObj) : Except PdfErr Bool := do
  let apOpt ← pyGet obj kAP
  match apOpt with
  | none => .ok false
  | some ap =>
    if !truthy ap then .ok false
    else do
      let hasN ← pyContains ap kN
      if !hasN then .ok false
      else do
        let apn0 ← pyItem d ap kN
        let apn :=
          match getObject d apn0 with
          | .ok v => v
          | .error _ => apn0
        match apn with
        | .stream sd =>
          match lookupA sd kFilter with
          | some _ => .ok false
          | none =>
            match lookupA sd kResources with
            | none => .ok false
            | some res =>
              if !truthy res then .ok false
              else do
                let xoOpt ← pyGet res kXObject
                let xo1 ←
                  match xoOpt with
                  | some (.ref n) => (getObject d (.ref n)).map some
                  | other => pure other
                match xo1 with
                | none => .ok false
                | some xv =>
                  match xv with
                  | .dict es =>
                    if !es.isEmpty then
                      .ok (es.any (fun p => xobjEntryIsImage d p.2))
                    else .ok false
                  | .stream es =>
                    if !es.isEmpty then
                      .ok (es.any (fun p => xobjEntryIsImage d p.2))
                    else .ok false
                  | _ => .ok false
        | _ => .ok false

/-- The trailing embedded-files inspection (source lines 155-158): read
the catalog's `/Names` and its `/EmbeddedFiles` entry purely for their
raising behavior; by design the result never affects the outcome. -/
def embeddedFilesStage (d : Document) : Except PdfErr Unit := do
  match lookupA d.trailer kRoot with
  | none => .ok ()
  | some root =>
    if truthy root then do
      let namesOpt ← pyGet root kNames
      match namesOpt with
      | none => .ok ()
      | some nm =>
        if truthy nm then do
          let _ ← pyGet nm kEmbeddedFiles
          .ok ()
        else .ok ()
    else .ok ()

/-- The body of `detect_image_in_button` before the exception handler:
locate the field, gate on `/FT` being `/Btn`, return true when a truthy
`/MK` dictionary has an `/I` entry, otherwise run the appearance scan,
then the inert embedded-files stage, and fall through to false. -/
def detect_body (d : Document) (fieldName : Str) : Except PdfErr Bool := do
  let objOpt ← find_field_obj d fieldName
  match objOpt with
  | none => .ok false
  | some obj =>
    if !truthy obj then .ok false
    else do
      let ft ← pyGet obj kFT
      if !optEqStr ft sBtn then .ok false
      else do
        let mkOpt ← pyGet obj kMK
        let iconHit ←
          match mkOpt with
          | none => pure false
          | some mk =>
            if truthy mk then do
              let iOpt ← pyGet mk kI
              pure iOpt.isSome
            else pure false
        if iconHit then .ok true
        else do
          let scanHit ← apScan d obj
          if scanHit then .ok true
          else do
            let _ ← embeddedFilesStage d
            .ok false

/-- Model of `detect_image_in_button(reader, field_name)`: the body with
every exception caught, degrading to false. -/
def detect_image_in_button (d : Document) (fieldName : Str) : Bool :=
  match detect_body d fieldName with
  | .ok b => b
  | .error _ => false

/-- Warning diagnostic emitted by `detect_image_in_button`: logged, with
the field name, exactly when the body raises. -/
def detect_image_warning (d : Document) (fieldName : Str) : Option Str :=
  match detect_body d fieldName with
  | .ok _ => none
  | .error _ =>
    some ("WARN: Image detection error for ".data ++ fieldName)

/-! ### The field index (`get_fields_dict`, source lines 46-64)

The primary path calls the external library's `PdfReader.get_fields`,
which is modelled below from the library's source and documented
behavior: it returns `None` (not an empty dictionary) when the resolved
catalog has no `/AcroForm` entry, and otherwise a dictionary keyed by
each field's `/TM` (falling back to `/T`) name, built left to right over
the form's `/Fields` array so that a repeated name keeps the last-seen
field; each stored entry is a fresh dictionary holding the field's
standard attributes with their values resolved.  Descent into `/Kids`
child fields and treating the form dictionary itself as a field are
omitted from the model; no claim concerns nested fields.  If the
library call raises, the code falls back to a manual traversal of the
AcroForm, whose own exceptions propagate out of `get_fields_dict`. -/

/-- Python dict assignment: replace the value of an existing key in
place, otherwise append the binding. -/
def insertA (es : FieldsMap) (k : Str) (v : PdfObj) : FieldsMap :=
  match es with
  | [] => [(k, v)]
  | (k2, w) :: rest =>
    if k2 = k then (k2, v) :: rest else (k2, w) :: insertA rest k v

/-- String payload of a string-like PDF object (a dictionary key must be
a string to be addressable by the extractor's string lookups; a field
whose name resolves to a non-string is not representable in the model's
string-keyed index and is skipped). -/
def strVal : PdfObj → Option Str
  | .str s => some s
  | .name s => some s
  | _ => none

/-- The field attributes the library copies into each index entry, with
resolved values. -/
def fieldCopyAttrs : List Str :=
  [kFT, "/Parent".data, "/Kids".data, kT, "/TU".data, kTM, "/Ff".data,
   kV, "/DV".data]

/-- Build the library's per-field attribute copy: for each standard
attribute present on the field, resolve its value and record it. -/
def mkFieldCopy (d : Document) (es : List (Str × PdfObj)) :
    List Str → Except PdfErr (List (Str × PdfObj))
  | [] => .ok []
  | a :: rest => do
    let tail ← mkFieldCopy d es rest
    match lookupA es a with
    | none => .ok tail
    | some raw => do
      let v ← getObject d raw
      .ok ((a, v) :: tail)

/-- The library's index key for a field: the resolved `/TM` entry,
falling back to the resolved `/T` entry; no key means the field is
skipped. -/
def libFieldKey (d : Document) (es : List (Str × PdfObj)) :
    Except PdfErr (Option Str) :=
  match lookupA es kTM with
  | some raw => do
    let v ← getObject d raw
    .ok (strVal v)
  | none =>
    match lookupA es kT with
    | some raw => do
      let v ← getObject d raw
      .ok (strVal v)
    | none => .ok none

/-- Left-to-right construction of the library's field index over the
`/Fields` array; a repeated key is overwritten, so the last-seen field
wins. -/
def buildFieldsLoop (d : Document) :
    List PdfObj → FieldsMap → Except PdfErr FieldsMap
  | [], acc => .ok acc
  | f :: rest, acc => do
    let field ← getObject d f
    let es ← entriesOf field
    let keyOpt ← libFieldKey d es
    match keyOpt with
    | none => buildFieldsLoop d rest acc
    | some k => do
      let copy ← mkFieldCopy d es fieldCopyAttrs
      buildFieldsLoop d rest (insertA acc k (.dict copy))

/-- Model of the external library call `reader.get_fields()` (see the
section comment above): `None` when the catalog lacks `/AcroForm`, an
empty dictionary when the form has no `/Fields` entry, otherwise the
name-keyed index of the fields array. -/
def pypdf_get_fields (d : Document) : Except PdfErr (Option FieldsMap) := do
  let rootRaw ←
    match lookupA d.trailer kRoot with
    | some v => pure v
    | none => Except.error .keyError
  let catalog ← getObject d rootRaw
  let hasAcro ← pyContains catalog kAcroForm
  if !hasAcro then .ok none
  else do
    let tree ← pyItem d catalog kAcroForm
    let tes ← entriesOf tree
    match lookupA tes kFields with
    | none => .ok (some [])
    | some _ => do
      let fsv ← pyItem d tree kFields
      let items ← pyIter fsv
      let m ← buildFieldsLoop d items []
      .ok (some m)

/-- Loop of the manual fallback traversal (source lines 59-63): key each
resolved field by its raw `/T` entry when that entry is truthy; later
fields overwrite earlier ones of the same name. -/
def fallbackLoop (d : Document) :
    List PdfObj → FieldsMap → Except PdfErr FieldsMap
  | [], acc => .ok acc
  | f :: rest, acc => do
    let obj ← getObject d f
    let nOpt ← pyGet obj kT
    match nOpt with
    | none => fallbackLoop d rest acc
    | some nv =>
      if truthy nv then
        match strVal nv with
        | some s => fallbackLoop d rest (insertA acc s obj)
        | none => fallbackLoop d rest acc
      else fallbackLoop d rest acc

/-- The manual AcroForm fallback of `get_fields_dict` (source lines
54-64): an empty dictionary when no truthy AcroForm is reachable or the
form has no `/Fields` key, otherwise the raw fields keyed by name.  Its
exceptions (for example an unresolved catalog reference) propagate. -/
def fallback_fields (d : Document) : Except PdfErr (Option FieldsMap) := do
  let acroOpt ←
    match lookupA d.trailer kRoot with
    | none => pure none
    | some root =>
      if truthy root then pyGet root kAcroForm else pure none
  match acroOpt with
  | none => .ok (some [])
  | some acro =>
    if !truthy acro then .ok (some [])
    else do
      let acroObj ← getObject d acro
      let hasF ← pyContains acroObj kFields
      if !hasF then .ok (some [])
      else do
        let fsv ← pyItem d acroObj kFields
        let items ← pyIter fsv
        let m ← fallbackLoop d items []
        .ok (some m)

/-- Model of `get_fields_dict(reader)`: the library call, falling back
to the manual traversal when the library call raises. -/
def get_fields_dict (d : Document) : Except PdfErr (Option FieldsMap) :=
  match pypdf_get_fields d with
  | .ok r => .ok r
  | .error _ => fallback_fields d

/-! ### The extraction session (`process_pdf`, source lines 164-219) and
the batch loop (`process_batch`, source lines 221-252) -/

def fDocNum : Str := "Doc Num".data
def fCorner : Str := "Corner of Section".data
def fTownship : Str := "Township".data
def fRange : Str := "Range".data
def fCounty : Str := "County".data
def fSurveyImage : Str := "Survey Image".data

/-- One extraction record per processed document. -/
structure ExtractionResult where
  filename : Str
  doc_num : Str
  corner_of_section : Str
  township : Str
  range : Str
  county : Str
  image_present_bool : Bool
  image_present_flag : Str
  township_options : List Str
  range_options : List Str
  county_options : List Str
deriving Repr, DecidableEq

/-- Model of `process_pdf(pdf_path)`.  The document source is `none`
when opening or parsing the file fails (`load_reader` or the reader
constructor raises).  Inside the session only `get_fields_dict` can
still raise, which the session-level handler turns into `None`; every
field-level operation is total and degrades locally. -/
def process_pdf (src : Option Document) (filename : Str) :
    Option ExtractionResult :=
  match src with
  | none => none
  | some reader =>
    match get_fields_dict reader with
    | .error _ => none
    | .ok fields =>
      let b := detect_image_in_button reader fSurveyImage
      some {
        filename := filename
        doc_num := get_value fields fDocNum
        corner_of_section := get_value fields fCorner
        township := get_value fields fTownship
        range := get_value fields fRange
        county := get_value fields fCounty
        image_present_bool := b
        image_present_flag := if b then "Y".data else "N".data
        township_options := get_choice_options reader fTownship
        range_options := get_choice_options reader fRange
        county_options := get_choice_options reader fCounty }

/-- The batch loop of `process_batch`: append the record of each
document whose session succeeds, skip the failed ones. -/
def process_batch_loop :
    List (Option Document × Str) → List ExtractionResult →
    List ExtractionResult
  | [], acc => acc
  | (src, fn) :: rest, acc =>
    match process_pdf src fn with
    | some r => process_batch_loop rest (acc ++ [r])
    | none => process_batch_loop rest acc

/-- Model of `process_batch`: the collected records together with the
attempted and succeeded counts of the cycle summary. -/
def process_batch (srcs : List (Option Document × Str)) :
    List ExtractionResult × Nat × Nat :=
  let results := process_batch_loop srcs []
  (results, srcs.length, results.length)

/-! ### Console serialization (source lines 190-201) and the
re-parser (`parse_batch_output`, `pdfextract3.0.py` lines 16-63) -/

/-- Join strings with a separator (Python `sep.join`). -/
def joinSep (sep : Str) : List Str → Str
  | [] => []
  | [x] => x
  | x :: y :: rest => x ++ sep ++ joinSep sep (y :: rest)

/-- The serialized option-list value of an options line (source line
198): the comma-space join of the options, or the text `None` for an
empty list. -/
def serializeOptions (opts : List Str) : Str :=
  if opts.isEmpty then "None".data else joinSep ", ".data opts

/-- Python `str` of a boolean. -/
def pyBoolStr (b : Bool) : Str :=
  if b then "True".data else "False".data

/-- The per-document console lines printed by `process_pdf` (source
lines 190-201), given the timestamp text of the header line. -/
def render_lines (ts : Str) (r : ExtractionResult) : List Str :=
  [ "[".data ++ ts ++ "] INFO: Extraction results for ".data ++
      r.filename ++ ":".data
  , "Doc Num: ".data ++ r.doc_num
  , "Corner of Section: ".data ++ r.corner_of_section
  , "Township (value): ".data ++ r.township
  , "Range (value): ".data ++ r.range
  , "County (value): ".data ++ r.county
  , "Image present (bool): ".data ++ pyBoolStr r.image_present_bool
  , "Image present (Y/N): ".data ++ r.image_present_flag
  , "Township options: ".data ++ serializeOptions r.township_options
  , "Range options: ".data ++ serializeOptions r.range_options
  , "County options: ".data ++ serializeOptions r.county_options
  , List.replicate 50 '-' ]

/-- The captured console text of one document: the printed lines joined
by newlines (each value string is spliced verbatim, so a value that
itself contains a newline produces extra physical lines when the text
is re-split). -/
def console_output (ts : Str) (r : ExtractionResult) : Str :=
  joinSep ['\n'] (render_lines ts r)

/-- Python whitespace characters recognized by `str.strip`. -/
def isPyWs (c : Char) : Bool :=
  c = ' ' || c = '\t' || c = '\n' || c = '\r' || c = '\x0b' || c = '\x0c'

/-- Python `str.strip()`. -/
def stripStr (s : Str) : Str :=
  ((s.dropWhile isPyWs).reverse.dropWhile isPyWs).reverse

/-- Accumulator of `splitOnChar`. -/
def splitOnCharAux (c : Char) : Str → Str → List Str
  | [], acc => [acc.reverse]
  | x :: rest, acc =>
    if x = c then acc.reverse :: splitOnCharAux c rest []
    else splitOnCharAux c rest (x :: acc)

/-- Python `s.split(c)` for a one-character separator: the empty string
yields a single empty part. -/
def splitOnChar (c : Char) (s : Str) : List Str :=
  splitOnCharAux c s []

/-- Accumulator of `splitFirstColon`. -/
def splitFirstAux (c : Char) : Str → Str → Option (Str × Str)
  | [], _ => none
  | x :: rest, acc =>
    if x = c then some (acc.reverse, rest)
    else splitFirstAux c rest (x :: acc)

/-- Python `line.split(':', 1)` restricted to the two-part case: the
text before the first colon and the text after it, or nothing when the
line has no colon. -/
def splitFirstColon (s : Str) : Option (Str × Str) :=
  splitFirstAux ':' s []

/-- Python `value.replace(", ", ",")`: left-to-right non-overlapping
replacement of the comma-space pattern by a bare comma (parser line
53). -/
def replaceCS : Str → Str
  | [] => []
  | [c] => [c]
  | c1 :: c2 :: rest =>
    if c1 = ',' ∧ c2 = ' ' then ',' :: replaceCS rest
    else c1 :: replaceCS (c2 :: rest)

/-- The parser's normalization of an options value (parser lines 50-53):
the text `None` or an empty value becomes the empty string, anything
else has every embedded comma-space collapsed to a comma. -/
def parseOptionsValue (v : Str) : Str :=
  if v = "None".data || v.isEmpty then [] else replaceCS v

/-- A record assembled by `parse_batch_output`: the filename captured
from a header line plus whichever mapped keys were seen. -/
structure ParsedRecord where
  filename : Str
  doc_num : Option Str := none
  corner_of_section : Option Str := none
  township : Option Str := none
  range : Option Str := none
  county : Option Str := none
  image_present_bool : Option Bool := none
  image_present_flag : Option Str := none
  township_options : Option Str := none
  range_options : Option Str := none
  county_options : Option Str := none
deriving Repr, DecidableEq

/-- The parser's key map dispatch (parser lines 20-31 and 45-55): store
a stripped value under its mapped key; the boolean key compares the
value with the text `True`, the option keys normalize, unknown keys are
ignored. -/
def updateRecord (cur : ParsedRecord) (key val : Str) : ParsedRecord :=
  if key = "Doc Num".data then { cur with doc_num := some val }
  else if key = "Corner of Section".data then
    { cur with corner_of_section := some val }
  else if key = "Township (value)".data then { cur with township := some val }
  else if key = "Range (value)".data then { cur with range := some val }
  else if key = "County (value)".data then { cur with county := some val }
  else if key = "Image present (bool)".data then
    { cur with image_present_bool := some (decide (val = "True".data)) }
  else if key = "Image present (Y/N)".data then
    { cur with image_present_flag := some val }
  else if key = "Township options".data then
    { cur with township_options := some (parseOptionsValue val) }
  else if key = "Range options".data then
    { cur with range_options := some (parseOptionsValue val) }
  else if key = "County options".data then
    { cur with county_options := some (parseOptionsValue val) }
  else cur

/-- The literal tested by the parser's header branch. -/
def needle : Str := "Extraction results for".data

/-- The literal prefix of the parser's header pattern (the needle
followed by a space). -/
def patFor : Str := "Extraction results for ".data

/-- Index of the last colon of a string, if any. -/
def lastColonIdx : Str → Option Nat
  | [] => none
  | c :: rest =>
    match lastColonIdx rest with
    | some i => some (i + 1)
    | none => if c = ':' then some 0 else none

/-- The greedy one-or-more capture of the header pattern after its
literal prefix: everything up to the last colon, provided at least one
character precedes it. -/
def captureGroup (s : Str) : Option Str :=
  match lastColonIdx s with
  | some i => if 1 ≤ i then some (s.take i) else none
  | none => none

/-- The regex search of the header branch (parser line 35): try each
start position left to right; where the literal prefix matches, succeed
with the greedy capture if one exists, otherwise keep scanning. -/
def searchFilename : Str → Option Str
  | [] => none
  | l@(_ :: rest) =>
    if startsL patFor l then
      match captureGroup (l.drop patFor.length) with
      | some g => some g
      | none => searchFilename rest
    else searchFilename rest

/-- Parser state: the finished records and the record in progress. -/
abbrev ParseState := List ParsedRecord × Option ParsedRecord

/-- One step of the parser's line loop (parser lines 33-58), with the
three branches in source order: a header line closes any open record
and opens a new one; a key-value line updates the open record; a
separator line closes the open record. -/
def parseLine (st : ParseState) (line : Str) : ParseState :=
  let results := st.1
  let cur := st.2
  if hasSub needle line then
    match searchFilename line with
    | some fn =>
      match cur with
      | some c =>
        (results ++ [c],
         some ⟨fn, none, none, none, none, none, none, none, none, none, none⟩)
      | none =>
        (results,
         some ⟨fn, none, none, none, none, none, none, none, none, none, none⟩)
    | none => (results, cur)
  else if cur.isSome && hasSub [':'] line then
    match cur, splitFirstColon line with
    | some c, some (k, v) =>
      (results, some (updateRecord c (stripStr k) (stripStr v)))
    | _, _ => (results, cur)
  else if hasSub "---".data line && cur.isSome then
    match cur with
    | some c => (results ++ [c], none)
    | none => (results, cur)
  else (results, cur)

/-- Model of `parse_batch_output(output)`: strip the whole text, split
it into physical lines on newlines, fold the line loop, and append any
record still in progress. -/
def parse_batch_output (output : Str) : List ParsedRecord :=
  let lines := splitOnChar '\n' (stripStr output)
  let st := lines.foldl parseLine ([], none)
  match st.2 with
  | some c => st.1 ++ [c]
  | none => st.1

/-- Whether a PDF object is an indirect reference. -/
def PdfObj.isRef : PdfObj → Bool
  | .ref _ => true
  | _ => false

/-! ## Helper lemmas about the Python-semantics primitives -/

lemma bind_ok {α β : Type} (a : α) (f : α → Except PdfErr β) :
    (Except.ok a >>= f : Except PdfErr β) = f a := rfl

lemma map_ok {α β : Type} (f : α → β) (a : α) :
    (Except.map f (Except.ok a) : Except PdfErr β) = .ok (f a) := rfl

lemma lookupA_ne_nil {es : List (Str × PdfObj)} {k : Str} {v : PdfObj}
    (h : lookupA es k = some v) : es.isEmpty = false := by
  cases es with
  | nil => simp [lookupA] at h
  | cons a l => rfl

lemma resolveF_ok_not_ref {d : Document} :
    ∀ {fuel : Nat} {x v : PdfObj}, resolveF d fuel x = .ok v →
      v.isRef = false := by
  intro fuel
  induction fuel with
  | zero => intro x v h; simp [resolveF] at h
  | succ n ih =>
    intro x v h
    cases x with
    | ref m =>
      simp only [resolveF] at h
      cases hl : lookupObj d.objects m with
      | none => rw [hl] at h; cases h
      | some w => rw [hl] at h; exact ih h
    | null => simp only [resolveF] at h; cases h; rfl
    | bool b => simp only [resolveF] at h; cases h; rfl
    | num k => simp only [resolveF] at h; cases h; rfl
    | str s => simp only [resolveF] at h; cases h; rfl
    | name s => simp only [resolveF] at h; cases h; rfl
    | arr xs => simp only [resolveF] at h; cases h; rfl
    | dict es => simp only [resolveF] at h; cases h; rfl
    | stream es => simp only [resolveF] at h; cases h; rfl

lemma getObject_not_ref (d : Document) (o : PdfObj) (h : o.isRef = false) :
    getObject d o = .ok o := by
  cases o <;> first
    | rfl
    | (exact absurd h (by simp [PdfObj.isRef]))

lemma getObject_idem {d : Document} {x v : PdfObj}
    (h : getObject d x = .ok v) : getObject d v = .ok v :=
  getObject_not_ref d v (resolveF_ok_not_ref h)

lemma pyGet_dict (es : List (Str × PdfObj)) (k : Str) :
    pyGet (.dict es) k = .ok (lookupA es k) := rfl

lemma truthy_dict (es : List (Str × PdfObj)) :
    truthy (.dict es) = !es.isEmpty := rfl

/-! ## Claim C2: an icon entry in the appearance characteristics forces
`hasImage` to be true -/

/-- C2: for a located field of button type whose `/MK`
appearance-characteristics dictionary carries a non-null `/I` icon key,
`detect_image_in_button` returns true; the icon value itself is never
inspected (it may be an arbitrary object), and no appearance-stream
information is consulted. -/
theorem button_icon_key_forces_true
    (d : Document) (n : Str) (o m : List (Str × PdfObj)) (ft v : PdfObj)
    (hfind : find_field_obj d n = .ok (some (.dict o)))
    (hft : lookupA o kFT = some ft)
    (hbtn : pyEqStr ft sBtn = true)
    (hmk : lookupA o kMK = some (.dict m))
    (hi : lookupA m kI = some v)
    (hv : v ≠ PdfObj.null) :
    detect_image_in_button d n = true := by
  have hone : o.isEmpty = false := lookupA_ne_nil hft
  have hmne : m.isEmpty = false := lookupA_ne_nil hi
  unfold detect_image_in_button detect_body
  rw [hfind]
  simp [bind_ok, map_ok, truthy, hone, hmne, pyGet, entriesOf, hft, hmk,
    hi, optEqStr, hbtn]

/-- Concrete document for the C2 witness: a button field named
`Survey Image` with an `/MK` `/I` icon entry and no appearance
stream. -/
def w2doc : Document :=
  { objects := []
  , trailer := [(kRoot, .dict [(kAcroForm, .dict [(kFields, .arr [
      .dict [(kT, .str fSurveyImage), (kFT, .name sBtn),
             (kMK, .dict [(kI, .ref 7)])]])])])] }

/-- Witness for C2 at `w2doc`. -/
theorem button_icon_key_forces_true_witness :
    detect_image_in_button w2doc fSurveyImage = true :=
  button_icon_key_forces_true w2doc fSurveyImage
    [(kT, .str fSurveyImage), (kFT, .name sBtn),
     (kMK, .dict [(kI, .ref 7)])]
    [(kI, .ref 7)] (.name sBtn) (.ref 7)
    (by rfl) (by rfl) (by rfl) (by rfl) (by rfl)
    (fun h => PdfObj.noConfusion h)

/-! ## Claim C6: the image heuristic is total and degrades every
internal exception to false with a warning naming the field -/

/-- C6: `detect_image_in_button` is a total function by construction;
whenever its body raises anywhere in the four-step heuristic, the
caught exception produces the result false together with a
warning-level diagnostic that contains the field name, and when the
body does not raise there is no warning. -/
theorem detect_degrades_to_false_on_error :
    ∀ (d : Document) (n : Str),
      (∀ e : PdfErr, detect_body d n = .error e →
        detect_image_in_button d n = false ∧
        detect_image_warning d n =
          some ("WARN: Image detection error for ".data ++ n)) ∧
      (∀ b : Bool, detect_body d n = .ok b →
        detect_image_in_button d n = b ∧
        detect_image_warning d n = none) := by
  intro d n
  constructor
  · intro e h
    unfold detect_image_in_button detect_image_warning
    rw [h]
    exact ⟨rfl, rfl⟩
  · intro b h
    unfold detect_image_in_button detect_image_warning
    rw [h]
    exact ⟨rfl, rfl⟩

/-- Document whose trailer catalog is an unresolved indirect reference:
every attribute access on it raises, so the heuristic's body raises. -/
def errdoc : Document := { objects := [], trailer := [(kRoot, .ref 9)] }

/-- Witness for C6 at `errdoc`: the body raises an attribute error and
the detector degrades to false with the field-naming warning. -/
theorem detect_degrades_to_false_on_error_witness :
    detect_image_in_button errdoc fSurveyImage = false ∧
    detect_image_warning errdoc fSurveyImage =
      some ("WARN: Image detection error for ".data ++ fSurveyImage) :=
  (detect_degrades_to_false_on_error errdoc fSurveyImage).1
    .attrError (by rfl)

/-! ## Claim C7: value reads absorb absence and errors -/

/-- C7: `get_value` returns the empty string when the index is the
library's no-form sentinel, when the field is absent from the index,
when the field's `/V` entry is absent, and when reading `/V` raises (in
which case the failure is also logged); and a session whose index lacks
the County field still succeeds, with the county value empty and every
other output of the result record computed normally. -/
theorem get_value_missing_field_degrades :
    (∀ n : Str, get_value none n = []) ∧
    (∀ (m : FieldsMap) (n : Str), lookupA m n = none →
        get_value (some m) n = []) ∧
    (∀ (m : FieldsMap) (n : Str) (entry : PdfObj)
        (es : List (Str × PdfObj)),
        lookupA m n = some entry → entriesOf entry = .ok es →
        lookupA es kV = none → get_value (some m) n = []) ∧
    (∀ (m : FieldsMap) (n : Str) (entry : PdfObj) (e : PdfErr),
        lookupA m n = some entry → pyGet entry kV = .error e →
        get_value (some m) n = [] ∧
        (get_value_warning (some m) n).isSome = true) ∧
    (∀ (reader : Document) (fd : Option FieldsMap) (fn : Str),
        get_fields_dict reader = .ok fd →
        (∀ m, fd = some m → lookupA m fCounty = none) →
        process_pdf (some reader) fn = some
          { filename := fn
            doc_num := get_value fd fDocNum
            corner_of_section := get_value fd fCorner
            township := get_value fd fTownship
            range := get_value fd fRange
            county := []
            image_present_bool := detect_image_in_button reader fSurveyImage
            image_present_flag :=
              if detect_image_in_button reader fSurveyImage then "Y".data
              else "N".data
            township_options := get_choice_options reader fTownship
            range_options := get_choice_options reader fRange
            county_options := get_choice_options reader fCounty }) := by
  refine ⟨fun n => rfl, ?_, ?_, ?_, ?_⟩
  · intro m n h
    simp only [get_value, h]
  · intro m n entry es h1 h2 h3
    simp only [get_value, h1, pyGet, h2, map_ok, h3]
  · intro m n entry e h1 h2
    refine ⟨?_, ?_⟩
    · simp only [get_value, h1, h2]
    · simp only [get_value_warning, h1, h2, Option.isSome]
  · intro reader fd fn hfd habs
    have hc : get_value fd fCounty = [] := by
      cases fd with
      | none => rfl
      | some m =>
        simp only [get_value]
        rw [habs m rfl]
    simp only [process_pdf, hfd, hc]

/-- Concrete document for the C7 witness: a form with a Doc Num field
and no County field. -/
def c7doc : Document :=
  { objects := []
  , trailer := [(kRoot, .dict [(kAcroForm, .dict [(kFields, .arr [
      .dict [(kT, .str fDocNum), (kV, .str "42".data)]])])])] }

/-- The index the library model builds for `c7doc`. -/
def c7fd : FieldsMap :=
  [(fDocNum, .dict [(kT, .str fDocNum), (kV, .str "42".data)])]

/-- Witness for C7 at `c7doc`: the County field is absent, its value
reads empty, and the session still produces the full record. -/
theorem get_value_missing_field_degrades_witness :
    get_value (some c7fd) fCounty = [] ∧
    process_pdf (some c7doc) "a.pdf".data = some
      { filename := "a.pdf".data
        doc_num := get_value (some c7fd) fDocNum
        corner_of_section := get_value (some c7fd) fCorner
        township := get_value (some c7fd) fTownship
        range := get_value (some c7fd) fRange
        county := []
        image_present_bool := detect_image_in_button c7doc fSurveyImage
        image_present_flag :=
          if detect_image_in_button c7doc fSurveyImage then "Y".data
          else "N".data
        township_options := get_choice_options c7doc fTownship
        range_options := get_choice_options c7doc fRange
        county_options := get_choice_options c7doc fCounty } :=
  ⟨get_value_missing_field_degrades.2.1 c7fd fCounty (by rfl),
   get_value_missing_field_degrades.2.2.2.2 c7doc (some c7fd)
     "a.pdf".data (by rfl)
     (fun m hm => by cases hm; rfl)⟩

/-! ## Claim C4 (corrected): a formless document yields the library's
`None` sentinel, not an empty mapping, and no field read throws -/

/-- Scope predicate of C4: the document's catalog is reachable (the
trailer's `/Root` entry resolves to a dictionary) but the catalog has
no `/AcroForm` entry. -/
def NoFormReachable (d : Document) : Prop :=
  ∃ raw cat, lookupA d.trailer kRoot = some raw ∧
    getObject d raw = .ok (.dict cat) ∧
    lookupA cat kAcroForm = none

/-- Concrete formless document: a catalog with only a page tree. -/
def c4doc : Document :=
  { objects := [], trailer := [(kRoot, .dict [("/Pages".data, .num 1)])] }

/-- Counterexample to C4 as stated: on a document whose catalog has no
interactive-form entry, `get_fields_dict` returns the library's `None`
sentinel — a value that is not a mapping at all — rather than an empty
mapping. -/
theorem fields_index_no_form_counterexample :
    NoFormReachable c4doc ∧
    get_fields_dict c4doc = .ok none ∧
    (none : Option FieldsMap).isSome = false :=
  ⟨⟨.dict [("/Pages".data, .num 1)], [("/Pages".data, .num 1)],
    rfl, rfl, rfl⟩, rfl, rfl⟩

/-- C4 as amended: for every document whose catalog is reachable but
has no interactive-form dictionary, `get_fields_dict` completes without
raising and returns the library's `None` sentinel (no mapping of
fields), and every subsequent field read on that result completes
without throwing and returns the empty string. -/
theorem fields_index_no_form_amended :
    ∀ d : Document, NoFormReachable d →
      get_fields_dict d = .ok none ∧
      ∀ n : Str, get_value none n = [] := by
  intro d ⟨raw, cat, hroot, hres, hacro⟩
  constructor
  · simp only [get_fields_dict, pypdf_get_fields]
    rw [hroot]
    simp [bind_ok, hres, hacro, pyContains]
  · intro n; rfl

/-- Witness for the amended C4 at `c4doc`. -/
theorem fields_index_no_form_amended_witness :
    get_fields_dict c4doc = .ok none ∧ get_value none fCounty = [] := by
  have h := fields_index_no_form_amended c4doc
    ⟨.dict [("/Pages".data, .num 1)], [("/Pages".data, .num 1)],
     rfl, rfl, rfl⟩
  exact ⟨h.1, h.2 fCounty⟩

/-! ## Claim C10: document-level failure containment in a batch -/

lemma process_batch_loop_eq :
    ∀ (srcs : List (Option Document × Str)) (acc : List ExtractionResult),
      process_batch_loop srcs acc =
        acc ++ srcs.filterMap (fun p => process_pdf p.1 p.2) := by
  intro srcs
  induction srcs with
  | nil => intro acc; simp [process_batch_loop]
  | cons p rest ih =>
    intro acc
    obtain ⟨src, fn⟩ := p
    cases h : process_pdf src fn with
    | some r =>
      simp [process_batch_loop, h, ih, List.filterMap_cons]
    | none =>
      simp [process_batch_loop, h, ih, List.filterMap_cons]

/-- C10: a session produces no record exactly when the document source
failed to open/parse or the field index could not be built (the only
errors that escape to the session handler — every field-level and
heuristic-level operation is total); the batch collects exactly the
records of the succeeding sessions in order, reporting attempted and
succeeded counts; and a corrupt document in the middle of a batch
contributes nothing while all sibling records are still produced. -/
theorem batch_document_failure_containment :
    (∀ (src : Option Document) (fn : Str),
       process_pdf src fn = none ↔
         (src = none ∨
          ∃ reader e, src = some reader ∧
            get_fields_dict reader = .error e)) ∧
    (∀ srcs : List (Option Document × Str),
       process_batch srcs =
         (srcs.filterMap (fun p => process_pdf p.1 p.2), srcs.length,
          (srcs.filterMap (fun p => process_pdf p.1 p.2)).length)) ∧
    (∀ (pre post : List (Option Document × Str)) (fn : Str),
       (process_batch (pre ++ (none, fn) :: post)).1 =
         (process_batch pre).1 ++ (process_batch post).1) := by
  have hbatch : ∀ srcs : List (Option Document × Str),
      process_batch srcs =
        (srcs.filterMap (fun p => process_pdf p.1 p.2), srcs.length,
         (srcs.filterMap (fun p => process_pdf p.1 p.2)).length) := by
    intro srcs
    unfold process_batch
    rw [process_batch_loop_eq srcs []]
    simp
  refine ⟨?_, hbatch, ?_⟩
  · intro src fn
    cases src with
    | none => simp [process_pdf]
    | some reader =>
      cases hg : get_fields_dict reader with
      | error e =>
        simp only [process_pdf, hg]
        exact iff_of_true trivial (Or.inr ⟨reader, e, rfl, hg⟩)
      | ok fd =>
        simp only [process_pdf, hg]
        constructor
        · intro h; exact absurd h (by simp)
        · rintro (h | ⟨r, e, hr, he⟩)
          · exact absurd h (by simp)
          · injection hr with h2
            subst h2
            rw [hg] at he
            exact Except.noConfusion he
  · intro pre post fn
    rw [hbatch (pre ++ (none, fn) :: post), hbatch pre, hbatch post]
    simp [List.filterMap_append, List.filterMap_cons, process_pdf]

/-- Witness for C10: a concrete batch of a good document, a corrupt
(unopenable) source, and another good document keeps both sibling
records and drops only the corrupt one. -/
theorem batch_document_failure_containment_witness :
    (process_batch [(some c7doc, "a.pdf".data), (none, "bad.pdf".data),
                    (some w2doc, "c.pdf".data)]).1 =
      (process_batch [(some c7doc, "a.pdf".data)]).1 ++
        (process_batch [(some w2doc, "c.pdf".data)]).1 ∧
    process_pdf none "bad.pdf".data = none :=
  ⟨batch_document_failure_containment.2.2
     [(some c7doc, "a.pdf".data)] [(some w2doc, "c.pdf".data)]
     "bad.pdf".data,
   (batch_document_failure_containment.1 none "bad.pdf".data).mpr
     (Or.inl rfl)⟩

/-! ## Claim C9 (corrected): duplicate field names — the index keeps the
last-seen field, but the locator used by the option reader and the image
detector returns the first-seen field -/

/-- A document consisting of a direct catalog whose direct AcroForm
holds the given direct field dictionaries. -/
def mkFormDoc (fields : List (List (Str × PdfObj))) : Document :=
  { objects := []
  , trailer := [(kRoot, .dict [(kAcroForm,
      .dict [(kFields, .arr (fields.map PdfObj.dict))])])] }

/-- Whether a field dictionary's raw `/T` entry equals the given name
(the comparison performed by the locator's loop). -/
def fieldNamed (es : List (Str × PdfObj)) (nm : Str) : Bool :=
  optEqStr (lookupA es kT) nm

/-- The string name of a field dictionary whose `/T` entry is a direct
text string. -/
def nameOf (es : List (Str × PdfObj)) : Str :=
  match lookupA es kT with
  | some (.str nm) => nm
  | _ => []

/-- The attribute copy the library's index stores for a field whose
entry values are all direct (no references to resolve). -/
def copyEntries (es : List (Str × PdfObj)) : List (Str × PdfObj) :=
  fieldCopyAttrs.filterMap (fun a => (lookupA es a).map (fun v => (a, v)))

lemma getObject_dict (d : Document) (es : List (Str × PdfObj)) :
    getObject d (.dict es) = .ok (.dict es) :=
  getObject_not_ref d _ rfl

lemma getObject_arr (d : Document) (xs : List PdfObj) :
    getObject d (.arr xs) = .ok (.arr xs) :=
  getObject_not_ref d _ rfl

lemma lookupA_mem {es : List (Str × PdfObj)} {k : Str} {v : PdfObj}
    (h : lookupA es k = some v) : (k, v) ∈ es := by
  induction es with
  | nil => simp [lookupA] at h
  | cons p rest ih =>
    obtain ⟨k2, w⟩ := p
    by_cases hk : k2 = k
    · subst hk
      simp [lookupA] at h
      subst h
      exact List.mem_cons_self _ _
    · simp [lookupA, hk] at h
      exact List.mem_cons_of_mem _ (ih h)

lemma lookupA_insertA (acc : FieldsMap) (k nm : Str) (v : PdfObj) :
    lookupA (insertA acc k v) nm =
      if k = nm then some v else lookupA acc nm := by
  induction acc with
  | nil => simp [insertA, lookupA]
  | cons p rest ih =>
    obtain ⟨k2, w⟩ := p
    by_cases hk : k2 = k
    · subst hk
      by_cases h2 : k2 = nm
      · subst h2
        simp [insertA, lookupA]
      · simp [insertA, lookupA, h2]
    · by_cases h2 : k2 = nm
      · subst h2
        have hk2 : ¬(k = k2) := fun h => hk h.symm
        simp [insertA, lookupA, hk, hk2]
      · simp [insertA, lookupA, hk, h2, ih]

lemma mkFieldCopy_no_ref (d : Document) (es : List (Str × PdfObj))
    (h : ∀ p ∈ es, p.2.isRef = false) :
    ∀ attrs : List Str,
      mkFieldCopy d es attrs =
        .ok (attrs.filterMap (fun a => (lookupA es a).map (fun v => (a, v)))) := by
  intro attrs
  induction attrs with
  | nil => rfl
  | cons a rest ih =>
    simp only [mkFieldCopy, ih, bind_ok, List.filterMap_cons]
    cases hl : lookupA es a with
    | none => rfl
    | some raw =>
      have hm := lookupA_mem hl
      have hr : raw.isRef = false := h (a, raw) hm
      simp [getObject_not_ref d raw hr, bind_ok]

lemma libFieldKey_str (d : Document) (es : List (Str × PdfObj)) (nm : Str)
    (hTM : lookupA es kTM = none) (hT : lookupA es kT = some (.str nm)) :
    libFieldKey d es = .ok (some (nameOf es)) := by
  unfold libFieldKey nameOf
  rw [hTM, hT]
  rfl

/-- The pure left fold describing what the library's index loop builds
over direct field dictionaries. -/
def buildPure (fields : List (List (Str × PdfObj))) (acc : FieldsMap) :
    FieldsMap :=
  fields.foldl
    (fun a es => insertA a (nameOf es) (.dict (copyEntries es))) acc

/-- Hypotheses of the duplicate-name analysis: every field dictionary is
direct (no reference-valued entry), has no `/TM` key, and has a direct
text-string `/T` name. -/
def DirectNamedFields (fields : List (List (Str × PdfObj))) : Prop :=
  ∀ es ∈ fields, (∀ p ∈ es, p.2.isRef = false) ∧
    lookupA es kTM = none ∧ ∃ nm, lookupA es kT = some (.str nm)

lemma buildFieldsLoop_pure (d : Document) :
    ∀ (fields : List (List (Str × PdfObj))) (acc : FieldsMap),
      DirectNamedFields fields →
      buildFieldsLoop d (fields.map PdfObj.dict) acc =
        .ok (buildPure fields acc) := by
  intro fields
  induction fields with
  | nil => intro acc _; rfl
  | cons es rest ih =>
    intro acc hdf
    obtain ⟨href, hTM, nm, hT⟩ := hdf es (List.mem_cons_self _ _)
    have hrest : DirectNamedFields rest :=
      fun e he => hdf e (List.mem_cons_of_mem _ he)
    simp only [List.map_cons, buildFieldsLoop, getObject_dict, bind_ok,
      entriesOf, libFieldKey_str d es nm hTM hT,
      mkFieldCopy_no_ref d es href fieldCopyAttrs]
    exact ih _ hrest

lemma lookup_buildPure :
    ∀ (fields : List (List (Str × PdfObj))) (acc : FieldsMap) (nm : Str),
      DirectNamedFields fields →
      lookupA (buildPure fields acc) nm =
        (match fields.reverse.find? (fun es => fieldNamed es nm) with
         | some es => some (.dict (copyEntries es))
         | none => lookupA acc nm) := by
  intro fields
  induction fields with
  | nil => intro acc nm _; rfl
  | cons es rest ih =>
    intro acc nm hdf
    obtain ⟨_, _, s, hT⟩ := hdf es (List.mem_cons_self _ _)
    have hrest : DirectNamedFields rest :=
      fun e he => hdf e (List.mem_cons_of_mem _ he)
    have hpred : fieldNamed es nm = decide (nameOf es = nm) := by
      simp [fieldNamed, nameOf, hT, optEqStr, pyEqStr]
    simp only [buildPure, List.foldl_cons]
    rw [show (rest.foldl
        (fun a e => insertA a (nameOf e) (.dict (copyEntries e)))
        (insertA acc (nameOf es) (.dict (copyEntries es)))) =
      buildPure rest (insertA acc (nameOf es) (.dict (copyEntries es)))
      from rfl]
    rw [ih _ nm hrest]
    rw [List.reverse_cons, List.find?_append]
    cases hf : rest.reverse.find? (fun e => fieldNamed e nm) with
    | some r => simp [Option.or]
    | none =>
      rw [lookupA_insertA]
      by_cases hnm : nameOf es = nm
      · simp [List.find?, hpred, hnm, Option.or]
      · simp [List.find?, hpred, hnm, Option.or]

lemma findFieldLoop_pure (d : Document) (n : Str) :
    ∀ fields : List (List (Str × PdfObj)),
      findFieldLoop d n (fields.map PdfObj.dict) =
        .ok ((fields.find? (fun es => fieldNamed es n)).map PdfObj.dict) := by
  intro fields
  induction fields with
  | nil => rfl
  | cons es rest ih =>
    simp only [List.map_cons, findFieldLoop, getObject_dict, bind_ok,
      pyGet, entriesOf, map_ok]
    by_cases h : fieldNamed es n
    · simp only [fieldNamed] at h
      simp [h, List.find?_cons_of_pos, fieldNamed]
    · simp only [fieldNamed] at h
      simp only [Bool.not_eq_true] at h
      simp [h, ih, List.find?_cons_of_neg, fieldNamed]

lemma find_field_obj_mkFormDoc (fields : List (List (Str × PdfObj)))
    (n : Str) :
    find_field_obj (mkFormDoc fields) n =
      .ok ((fields.find? (fun es => fieldNamed es n)).map PdfObj.dict) := by
  simp [find_field_obj, mkFormDoc, lookupA, pyGet, entriesOf, truthy,
    getObject_dict, pyIter, bind_ok, map_ok, findFieldLoop_pure]

lemma get_fields_dict_mkFormDoc (fields : List (List (Str × PdfObj)))
    (h : DirectNamedFields fields) :
    get_fields_dict (mkFormDoc fields) = .ok (some (buildPure fields [])) := by
  have hb := buildFieldsLoop_pure (mkFormDoc fields) fields [] h
  simp only [mkFormDoc] at hb
  simp [get_fields_dict, pypdf_get_fields, mkFormDoc, lookupA, pyContains,
    pyItem, entriesOf, getObject_dict, getObject_arr, pyIter, bind_ok,
    map_ok, hb]

/-- C9 as amended: when top-level fields share a name, the name-keyed
index built by the locator maps the name to (the attribute copy of) the
last-seen field, so the value read observes the last-seen field; but
`find_field_obj` — the lookup used by both the option reader and the
image detector — returns the first-seen field of that name, so those two
operations observe the first-seen field, not the last-seen one. -/
theorem duplicate_names_amended (fields : List (List (Str × PdfObj)))
    (n : Str) (h : DirectNamedFields fields) :
    (get_fields_dict (mkFormDoc fields) = .ok (some (buildPure fields [])) ∧
     ∀ nm : Str, lookupA (buildPure fields []) nm =
       (fields.reverse.find? (fun es => fieldNamed es nm)).map
         (fun es => PdfObj.dict (copyEntries es))) ∧
    find_field_obj (mkFormDoc fields) n =
      .ok ((fields.find? (fun es => fieldNamed es n)).map PdfObj.dict) := by
  refine ⟨⟨get_fields_dict_mkFormDoc fields h, ?_⟩,
    find_field_obj_mkFormDoc fields n⟩
  intro nm
  rw [lookup_buildPure fields [] nm h]
  cases fields.reverse.find? (fun es => fieldNamed es nm) <;>
    simp [lookupA]

/-- The first of two fields sharing the name County. -/
def dupField1 : List (Str × PdfObj) :=
  [(kT, .str fCounty), (kV, .str "first".data),
   (kOptK, .arr [.str "A".data])]

/-- The second (last-seen) of two fields sharing the name County. -/
def dupField2 : List (Str × PdfObj) :=
  [(kT, .str fCounty), (kV, .str "second".data),
   (kOptK, .arr [.str "B".data])]

/-- Document with two top-level fields both named County. -/
def dupdoc : Document := mkFormDoc [dupField1, dupField2]

/-- The index the library model builds for `dupdoc`: County maps to the
attribute copy of the last-seen field. -/
def dupIndex : FieldsMap :=
  [(fCounty, .dict [(kT, .str fCounty), (kV, .str "second".data)])]

/-- Counterexample to C9 as stated: on a document with two fields named
County, the index maps County to the last-seen field (the value read
returns its value, `second`), yet the option read — which goes through
`find_field_obj` — returns the first-seen field's options `[A]`, not the
last-seen field's options `[B]`; so not every per-field operation
observes the last-seen field. -/
theorem duplicate_names_counterexample :
    get_fields_dict dupdoc = .ok (some dupIndex) ∧
    get_value (some dupIndex) fCounty = "second".data ∧
    get_choice_options dupdoc fCounty = ["A".data] ∧
    lookupA dupField2 kOptK = some (.arr [.str "B".data]) ∧
    decide (("A".data : Str) = "B".data) = false :=
  ⟨rfl, rfl, rfl, rfl, rfl⟩

/-- Hypotheses of the duplicate-name analysis hold for the two concrete
County fields. -/
lemma dupFields_direct : DirectNamedFields [dupField1, dupField2] := by
  intro es hes
  simp only [List.mem_cons, List.not_mem_nil, or_false] at hes
  rcases hes with rfl | rfl
  · exact ⟨by decide, rfl, fCounty, rfl⟩
  · exact ⟨by decide, rfl, fCounty, rfl⟩

/-- Witness for the amended C9 at `dupdoc`: the locator returns the
first-seen County field while the built index maps County to the copy of
the last-seen one. -/
theorem duplicate_names_amended_witness :
    find_field_obj dupdoc fCounty = .ok (some (.dict dupField1)) ∧
    lookupA (buildPure [dupField1, dupField2] []) fCounty =
      some (.dict (copyEntries dupField2)) := by
  have h := duplicate_names_amended [dupField1, dupField2] fCounty
    dupFields_direct
  exact ⟨h.2.trans (by rfl), (h.1.2 fCounty).trans (by rfl)⟩

/-! ## Claim C5: choice-option order and normalization -/

lemma bind_err {α β : Type} (e : PdfErr) (f : α → Except PdfErr β) :
    (Except.error e >>= f : Except PdfErr β) = .error e := rfl

lemma findFieldLoop_found (d : Document) (n : Str) :
    ∀ {items : List PdfObj} {obj : PdfObj},
      findFieldLoop d n items = .ok (some obj) →
      ∃ es t, entriesOf obj = .ok es ∧ lookupA es kT = some t ∧
        pyEqStr t n = true := by
  intro items
  induction items with
  | nil =>
    intro obj h
    exact absurd h (by simp [findFieldLoop])
  | cons f rest ih =>
    intro obj h
    simp only [findFieldLoop] at h
    cases hg : getObject d f with
    | error e => rw [hg, bind_err] at h; exact Except.noConfusion h
    | ok obj2 =>
      rw [hg, bind_ok] at h
      cases hp : pyGet obj2 kT with
      | error e => rw [hp, bind_err] at h; exact Except.noConfusion h
      | ok t =>
        rw [hp, bind_ok] at h
        by_cases he : optEqStr t n = true
        · rw [if_pos he] at h
          have hinj : some obj2 = some obj := Except.ok.inj h
          have hobj : obj2 = obj := Option.some.inj hinj
          subst hobj
          cases hE : entriesOf obj2 with
          | error e =>
            rw [show pyGet obj2 kT = (entriesOf obj2).map
                (fun es => lookupA es kT) from rfl, hE] at hp
            exact Except.noConfusion hp
          | ok es =>
            rw [show pyGet obj2 kT = (entriesOf obj2).map
                (fun es => lookupA es kT) from rfl, hE, map_ok] at hp
            have ht : lookupA es kT = t := Except.ok.inj hp
            cases t with
            | none => simp [optEqStr] at he
            | some tv =>
              exact ⟨es, tv, rfl, ht, by simpa [optEqStr] using he⟩
        · rw [if_neg he] at h
          exact ih h

lemma find_field_obj_found {d : Document} {n : Str} {obj : PdfObj}
    (h : find_field_obj d n = .ok (some obj)) :
    ∃ es t, entriesOf obj = .ok es ∧ lookupA es kT = some t ∧
      pyEqStr t n = true := by
  simp only [find_field_obj] at h
  cases hr : lookupA d.trailer kRoot with
  | none =>
    simp only [hr] at h
    exact Option.noConfusion (Except.ok.inj h)
  | some root =>
    simp only [hr] at h
    by_cases htr : truthy root = true
    · rw [if_pos htr] at h
      cases ha : pyGet root kAcroForm with
      | error e => rw [ha, bind_err] at h; exact Except.noConfusion h
      | ok acroOpt =>
        rw [ha, bind_ok] at h
        cases acroOpt with
        | none => exact Option.noConfusion (Except.ok.inj h)
        | some acro =>
          dsimp only at h
          by_cases hta : truthy acro = true
          · have hcond : ¬((!truthy acro) = true) := by
              rw [hta]; simp
            rw [if_neg hcond] at h
            cases hgo : getObject d acro with
            | error e => rw [hgo, bind_err] at h; exact Except.noConfusion h
            | ok acroObj =>
              rw [hgo, bind_ok] at h
              cases hpf : pyGet acroObj kFields with
              | error e =>
                rw [hpf, bind_err] at h; exact Except.noConfusion h
              | ok fsOpt =>
                rw [hpf, bind_ok] at h
                cases hpi : pyIter (fsOpt.getD (.arr [])) with
                | error e =>
                  rw [hpi, bind_err] at h
                  exact Except.noConfusion h
                | ok items =>
                  rw [hpi, bind_ok] at h
                  exact findFieldLoop_found d n h
          · simp only [Bool.not_eq_true] at hta
            have hcond : (!truthy acro) = true := by rw [hta]; rfl
            rw [if_pos hcond] at h
            exact Option.noConfusion (Except.ok.inj h)
    · simp only [Bool.not_eq_true] at htr
      rw [if_neg (by rw [htr]; simp : ¬(truthy root = true))] at h
      exact Option.noConfusion (Except.ok.inj h)

/-- A located field object is a nonempty dictionary-like object (it had
a matching `/T` entry), hence truthy. -/
lemma found_dict_truthy {d : Document} {n : Str} {o : List (Str × PdfObj)}
    (h : find_field_obj d n = .ok (some (.dict o))) :
    o.isEmpty = false := by
  obtain ⟨es, t, hes, hT, _⟩ := find_field_obj_found h
  have ho : o = es := Except.ok.inj hes
  subst ho
  exact lookupA_ne_nil hT

/-- The claim-side view of one stored option entry: a bare string is
returned as that string, a two-element export/display pair as the
export element's string; nothing else is covered by the claim. -/
def claimOptionView : PdfObj → Option Str
  | .str s => some s
  | .arr [e, _] => some (pdfStr e)
  | _ => none

/-- C5: for a located Choice field whose `/Opt` is a direct array of
entries each either a bare string or a two-element export/display pair,
`get_choice_options` returns exactly the claim-side view of the entries
in stored order; an absent field or absent `/Opt` yields the empty
sequence, and so does any raising read. -/
theorem choice_options_contract :
    (∀ (d : Document) (n : Str) (o : List (Str × PdfObj))
        (items : List PdfObj),
        find_field_obj d n = .ok (some (.dict o)) →
        lookupA o kOptK = some (.arr items) →
        (∀ it ∈ items, (claimOptionView it).isSome = true) →
        get_choice_options d n =
          items.map (fun it => (claimOptionView it).getD [])) ∧
    (∀ (d : Document) (n : Str),
        find_field_obj d n = .ok none → get_choice_options d n = []) ∧
    (∀ (d : Document) (n : Str) (o : List (Str × PdfObj)),
        find_field_obj d n = .ok (some (.dict o)) →
        lookupA o kOptK = none → get_choice_options d n = []) ∧
    (∀ (d : Document) (n : Str) (e : PdfErr),
        get_choice_options_body d n = .error e →
        get_choice_options d n = []) := by
  refine ⟨?_, ?_, ?_, ?_⟩
  · intro d n o items hf hopt hview
    have hne : o.isEmpty = false := found_dict_truthy hf
    cases items with
    | nil =>
      simp [get_choice_options, get_choice_options_body, hf, bind_ok,
        truthy, hne, pyGet, entriesOf, map_ok, hopt]
    | cons it rest =>
      have hmap : ∀ x ∈ it :: rest,
          optionEntryStr x = (claimOptionView x).getD [] := by
        intro x hx
        have hv := hview x hx
        cases x with
        | str s => rfl
        | arr xs =>
          cases xs with
          | nil => simp [claimOptionView] at hv
          | cons e ys =>
            cases ys with
            | nil => simp [claimOptionView] at hv
            | cons y zs =>
              cases zs with
              | nil => rfl
              | cons z ws => simp [claimOptionView] at hv
        | null => simp [claimOptionView] at hv
        | bool b => simp [claimOptionView] at hv
        | num m => simp [claimOptionView] at hv
        | name s => simp [claimOptionView] at hv
        | dict es2 => simp [claimOptionView] at hv
        | stream es2 => simp [claimOptionView] at hv
        | ref m => simp [claimOptionView] at hv
      simp only [get_choice_options, get_choice_options_body, hf, bind_ok,
        truthy, hne, Bool.not_false, if_true, pyGet, entriesOf, map_ok,
        hopt, pyIter, List.isEmpty_cons, Bool.not_false]
      simpa using List.map_congr_left hmap
  · intro d n hf
    simp [get_choice_options, get_choice_options_body, hf, bind_ok]
  · intro d n o hf hopt
    have hne : o.isEmpty = false := found_dict_truthy hf
    simp [get_choice_options, get_choice_options_body, hf, bind_ok,
      truthy, hne, pyGet, entriesOf, map_ok, hopt]
  · intro d n e h
    simp [get_choice_options, h]

/-- Concrete Choice-field document for the C5 witness: County options
stored as a bare string and an export/display pair. -/
def c5doc : Document := mkFormDoc
  [[(kT, .str fCounty), (kFT, .name "/Ch".data),
    (kOptK, .arr [.str "Ada".data,
                  .arr [.str "BX".data, .str "Boise".data]])]]

/-- Witness for C5 at `c5doc` (order preserved, pair normalized to the
export element) and at the formless `c4doc` (absent field gives the
empty sequence). -/
theorem choice_options_contract_witness :
    get_choice_options c5doc fCounty = ["Ada".data, "BX".data] ∧
    get_choice_options c4doc fCounty = [] :=
  ⟨(choice_options_contract.1 c5doc fCounty
      [(kT, .str fCounty), (kFT, .name "/Ch".data),
       (kOptK, .arr [.str "Ada".data,
                     .arr [.str "BX".data, .str "Boise".data]])]
      [.str "Ada".data, .arr [.str "BX".data, .str "Boise".data]]
      (by rfl) (by rfl) (by decide)).trans (by rfl),
   choice_options_contract.2.1 c4doc fCounty (by rfl)⟩

/-! ## Claim C1 (corrected): with no icon entry, `hasImage` is true
exactly when an Image XObject is reachable through the normal
appearance stream — provided the stream passes the code's
`DecodedStreamObject` gate, i.e. its stream dictionary carries no
`/Filter` entry; a filtered appearance stream refutes the claim's
unrestricted iff. -/

lemma map_err {α β : Type} (f : α → β) (e : PdfErr) :
    (Except.map f (Except.error e) : Except PdfErr β) = .error e := rfl

lemma entriesOf_ok_shape {x : PdfObj} {es : List (Str × PdfObj)}
    (h : entriesOf x = .ok es) : x = .dict es ∨ x = .stream es := by
  cases x with
  | dict es2 => exact Or.inl (by rw [Except.ok.inj h])
  | stream es2 => exact Or.inr (by rw [Except.ok.inj h])
  | null => exact Except.noConfusion h
  | bool b => exact Except.noConfusion h
  | num m => exact Except.noConfusion h
  | str s => exact Except.noConfusion h
  | name s => exact Except.noConfusion h
  | arr xs => exact Except.noConfusion h
  | ref m => exact Except.noConfusion h

lemma pyItem_ok_not_ref {d : Document} {x : PdfObj} {k : Str} {v : PdfObj}
    (h : pyItem d x k = .ok v) : v.isRef = false := by
  unfold pyItem at h
  cases hE : entriesOf x with
  | error e => rw [hE, bind_err] at h; exact Except.noConfusion h
  | ok es =>
    rw [hE, bind_ok] at h
    cases hl : lookupA es k with
    | none => simp only [hl] at h; exact Except.noConfusion h
    | some raw => simp only [hl] at h; exact resolveF_ok_not_ref h

/-- What one XObject-scan entry being recognized as an image amounts to:
the entry resolves to a dictionary-like object whose raw `/Subtype`
entry equals the name `/Image`. -/
lemma xobjEntryIsImage_iff (d : Document) (x : PdfObj) :
    xobjEntryIsImage d x = true ↔
      ∃ w wes st, getObject d x = .ok w ∧ entriesOf w = .ok wes ∧
        lookupA wes kSubtype = some st ∧ pyEqStr st sImage = true := by
  unfold xobjEntryIsImage
  constructor
  · intro h
    cases hg : getObject d x with
    | error e => rw [hg, bind_err] at h; exact Bool.noConfusion h
    | ok w =>
      rw [hg, bind_ok] at h
      cases hE : entriesOf w with
      | error e =>
        rw [show pyGet w kSubtype = (entriesOf w).map
            (fun es => lookupA es kSubtype) from rfl, hE, map_err,
          bind_err] at h
        exact Bool.noConfusion h
      | ok wes =>
        rw [show pyGet w kSubtype = (entriesOf w).map
            (fun es => lookupA es kSubtype) from rfl, hE, map_ok,
          bind_ok] at h
        cases hl : lookupA wes kSubtype with
        | none => rw [hl] at h; exact Bool.noConfusion h
        | some st =>
          rw [hl] at h
          exact ⟨w, wes, st, rfl, hE, hl, h⟩
  · intro ⟨w, wes, st, hg, hE, hl, him⟩
    rw [hg, bind_ok,
      show pyGet w kSubtype = (entriesOf w).map
        (fun es => lookupA es kSubtype) from rfl, hE, map_ok, bind_ok, hl]
    exact him

/-- Claim-side reachability of C1, following the spec's step 3: the
field's raw `/AP` entry is a dictionary whose `/N` entry resolves to a
content stream; the stream's raw `/Resources` entry is a dictionary
whose raw `/XObject` entry (resolved once when it is an indirect
reference) is a dictionary, at least one of whose entries resolves to a
dictionary-like object of subtype `/Image`. -/
def ImageXObjectReachable (d : Document) (o : List (Str × PdfObj)) : Prop :=
  ∃ ap aes apn0 sd res re xo0 xv xes p w wes st,
    lookupA o kAP = some ap ∧
    entriesOf ap = .ok aes ∧
    lookupA aes kN = some apn0 ∧
    getObject d apn0 = .ok (.stream sd) ∧
    lookupA sd kResources = some res ∧
    entriesOf res = .ok re ∧
    lookupA re kXObject = some xo0 ∧
    ((xo0.isRef = false ∧ xv = xo0) ∨
     (xo0.isRef = true ∧ getObject d xo0 = .ok xv)) ∧
    entriesOf xv = .ok xes ∧
    p ∈ xes ∧
    getObject d (Prod.snd p) = .ok w ∧
    entriesOf w = .ok wes ∧
    lookupA wes kSubtype = some st ∧
    pyEqStr st sImage = true

/-- Code-side reachability: the same path as `ImageXObjectReachable`,
restricted to a normal appearance stream that the code's
`isinstance(apn_obj, DecodedStreamObject)` gate admits, i.e. whose
stream dictionary has no `/Filter` entry. -/
def ImageXObjectReachableDecoded (d : Document)
    (o : List (Str × PdfObj)) : Prop :=
  ∃ ap aes apn0 sd res re xo0 xv xes p w wes st,
    lookupA o kAP = some ap ∧
    entriesOf ap = .ok aes ∧
    lookupA aes kN = some apn0 ∧
    getObject d apn0 = .ok (.stream sd) ∧
    lookupA sd kFilter = none ∧
    lookupA sd kResources = some res ∧
    entriesOf res = .ok re ∧
    lookupA re kXObject = some xo0 ∧
    ((xo0.isRef = false ∧ xv = xo0) ∨
     (xo0.isRef = true ∧ getObject d xo0 = .ok xv)) ∧
    entriesOf xv = .ok xes ∧
    p ∈ xes ∧
    getObject d (Prod.snd p) = .ok w ∧
    entriesOf w = .ok wes ∧
    lookupA wes kSubtype = some st ∧
    pyEqStr st sImage = true

lemma scan_any_found {d : Document} {xes : List (Str × PdfObj)}
    (h : xes.any (fun q => xobjEntryIsImage d q.2) = true) :
    ∃ p w wes st, p ∈ xes ∧ getObject d (Prod.snd p) = .ok w ∧
      entriesOf w = .ok wes ∧ lookupA wes kSubtype = some st ∧
      pyEqStr st sImage = true := by
  obtain ⟨p, hp, hfp⟩ := List.any_eq_true.mp h
  obtain ⟨w, wes, st, h1, h2, h3, h4⟩ := (xobjEntryIsImage_iff d p.2).mp hfp
  exact ⟨p, w, wes, st, hp, h1, h2, h3, h4⟩

lemma pyItem_ok_decompose {d : Document} {x : PdfObj} {k : Str}
    {v : PdfObj} (h : pyItem d x k = .ok v) :
    ∃ es raw, entriesOf x = .ok es ∧ lookupA es k = some raw ∧
      getObject d raw = .ok v := by
  unfold pyItem at h
  cases hE : entriesOf x with
  | error e => rw [hE, bind_err] at h; exact Except.noConfusion h
  | ok es =>
    rw [hE, bind_ok] at h
    cases hl : lookupA es k with
    | none => simp only [hl] at h; exact Except.noConfusion h
    | some raw => simp only [hl] at h; exact ⟨es, raw, rfl, hl, h⟩

lemma pyGet_ok_decompose {x : PdfObj} {k : Str} {opt : Option PdfObj}
    (h : pyGet x k = .ok opt) :
    ∃ es, entriesOf x = .ok es ∧ lookupA es k = opt := by
  unfold pyGet at h
  cases hE : entriesOf x with
  | error e => rw [hE, map_err] at h; exact Except.noConfusion h
  | ok es =>
    rw [hE, map_ok] at h
    exact ⟨es, rfl, Except.ok.inj h⟩

/-- The appearance-stream resource scan succeeds with true exactly when
the code-side reachability path — through an unfiltered appearance
stream — exists. -/
lemma apScan_true_iff (d : Document) (o : List (Str × PdfObj)) :
    apScan d (.dict o) = .ok true ↔ ImageXObjectReachableDecoded d o := by
  constructor
  · intro h
    simp only [apScan] at h
    rw [show pyGet (.dict o) kAP = .ok (lookupA o kAP) from rfl,
      bind_ok] at h
    cases hap : lookupA o kAP with
    | none =>
      simp only [hap] at h
      exact Bool.noConfusion (Except.ok.inj h)
    | some ap =>
      simp only [hap] at h
      by_cases htap : truthy ap = true
      swap
      · simp only [Bool.not_eq_true] at htap
        rw [if_pos (by rw [htap]; rfl : (!truthy ap) = true)] at h
        exact Bool.noConfusion (Except.ok.inj h)
      rw [if_neg (by rw [htap]; simp : ¬((!truthy ap) = true))] at h
      cases hcn : pyContains ap kN with
      | error e => rw [hcn, bind_err] at h; exact Except.noConfusion h
      | ok hasN =>
        rw [hcn, bind_ok] at h
        cases hasN with
        | false =>
          rw [if_pos (by rfl : (!false) = true)] at h
          exact Bool.noConfusion (Except.ok.inj h)
        | true =>
          rw [if_neg (by simp : ¬((!true) = true))] at h
          cases hpi : pyItem d ap kN with
          | error e => rw [hpi, bind_err] at h; exact Except.noConfusion h
          | ok apn0 =>
            rw [hpi, bind_ok] at h
            rw [getObject_not_ref d apn0 (pyItem_ok_not_ref hpi)] at h
            dsimp only at h
            obtain ⟨aes, rawN, hApEs, hNlook, hNres⟩ :=
              pyItem_ok_decompose hpi
            cases apn0 with
            | stream sd =>
              have hfil : lookupA sd kFilter = none := by
                cases hfil2 : lookupA sd kFilter with
                | none => rfl
                | some f =>
                  simp only [hfil2] at h
                  exact Bool.noConfusion (Except.ok.inj h)
              simp only [hfil] at h
              cases hres : lookupA sd kResources with
              | none =>
                simp only [hres] at h
                exact Bool.noConfusion (Except.ok.inj h)
              | some res =>
                simp only [hres] at h
                by_cases htres : truthy res = true
                swap
                · simp only [Bool.not_eq_true] at htres
                  rw [if_pos (by rw [htres]; rfl :
                    (!truthy res) = true)] at h
                  exact Bool.noConfusion (Except.ok.inj h)
                rw [if_neg (by rw [htres]; simp :
                  ¬((!truthy res) = true))] at h
                cases hxo : pyGet res kXObject with
                | error e =>
                  rw [hxo, bind_err] at h; exact Except.noConfusion h
                | ok xoOpt =>
                  rw [hxo, bind_ok] at h
                  obtain ⟨re, hResEs, hxoeq⟩ := pyGet_ok_decompose hxo
                  cases xoOpt with
                  | none => exact Bool.noConfusion (Except.ok.inj h)
                  | some xo0 =>
                    cases xo0 with
                    | ref nn =>
                      dsimp only at h
                      cases hg : getObject d (.ref nn) with
                      | error e =>
                        rw [hg, map_err, bind_err] at h
                        exact Except.noConfusion h
                      | ok xv =>
                        rw [hg, map_ok, bind_ok] at h
                        cases xv with
                        | dict xes =>
                          cases xes with
                          | nil => exact Bool.noConfusion (Except.ok.inj h)
                          | cons q qs =>
                            have hany : (q :: qs).any
                                (fun p => xobjEntryIsImage d p.2) = true :=
                              Except.ok.inj h
                            obtain ⟨p, w, wes, st, hp, h1, h2, h3, h4⟩ :=
                              scan_any_found hany
                            exact ⟨ap, aes, rawN, sd, res, re, .ref nn,
                              .dict (q :: qs), q :: qs, p, w, wes, st,
                              hap, hApEs, hNlook, hNres, hfil, hres, hResEs,
                              hxoeq, Or.inr ⟨rfl, hg⟩, rfl, hp, h1, h2,
                              h3, h4⟩
                        | stream xes =>
                          cases xes with
                          | nil => exact Bool.noConfusion (Except.ok.inj h)
                          | cons q qs =>
                            have hany : (q :: qs).any
                                (fun p => xobjEntryIsImage d p.2) = true :=
                              Except.ok.inj h
                            obtain ⟨p, w, wes, st, hp, h1, h2, h3, h4⟩ :=
                              scan_any_found hany
                            exact ⟨ap, aes, rawN, sd, res, re, .ref nn,
                              .stream (q :: qs), q :: qs, p, w, wes, st,
                              hap, hApEs, hNlook, hNres, hfil, hres, hResEs,
                              hxoeq, Or.inr ⟨rfl, hg⟩, rfl, hp, h1, h2,
                              h3, h4⟩
                        | null => exact Bool.noConfusion (Except.ok.inj h)
                        | bool b => exact Bool.noConfusion (Except.ok.inj h)
                        | num m => exact Bool.noConfusion (Except.ok.inj h)
                        | str s => exact Bool.noConfusion (Except.ok.inj h)
                        | name s => exact Bool.noConfusion (Except.ok.inj h)
                        | arr ys => exact Bool.noConfusion (Except.ok.inj h)
                        | ref mm => exact Bool.noConfusion (Except.ok.inj h)
                    | dict xes =>
                      cases xes with
                      | nil => exact Bool.noConfusion (Except.ok.inj h)
                      | cons q qs =>
                        have hany : (q :: qs).any
                            (fun p => xobjEntryIsImage d p.2) = true :=
                          Except.ok.inj h
                        obtain ⟨p, w, wes, st, hp, h1, h2, h3, h4⟩ :=
                          scan_any_found hany
                        exact ⟨ap, aes, rawN, sd, res, re, .dict (q :: qs),
                          .dict (q :: qs), q :: qs, p, w, wes, st,
                          hap, hApEs, hNlook, hNres, hfil, hres, hResEs,
                          hxoeq, Or.inl ⟨rfl, rfl⟩, rfl, hp, h1, h2,
                          h3, h4⟩
                    | stream xes =>
                      cases xes with
                      | nil => exact Bool.noConfusion (Except.ok.inj h)
                      | cons q qs =>
                        have hany : (q :: qs).any
                            (fun p => xobjEntryIsImage d p.2) = true :=
                          Except.ok.inj h
                        obtain ⟨p, w, wes, st, hp, h1, h2, h3, h4⟩ :=
                          scan_any_found hany
                        exact ⟨ap, aes, rawN, sd, res, re,
                          .stream (q :: qs), .stream (q :: qs), q :: qs,
                          p, w, wes, st, hap, hApEs, hNlook, hNres, hfil,
                          hres, hResEs, hxoeq, Or.inl ⟨rfl, rfl⟩, rfl, hp,
                          h1, h2, h3, h4⟩
                    | null => exact Bool.noConfusion (Except.ok.inj h)
                    | bool b => exact Bool.noConfusion (Except.ok.inj h)
                    | num m => exact Bool.noConfusion (Except.ok.inj h)
                    | str s => exact Bool.noConfusion (Except.ok.inj h)
                    | name s => exact Bool.noConfusion (Except.ok.inj h)
                    | arr ys => exact Bool.noConfusion (Except.ok.inj h)
            | null => exact Bool.noConfusion (Except.ok.inj h)
            | bool b => exact Bool.noConfusion (Except.ok.inj h)
            | num m => exact Bool.noConfusion (Except.ok.inj h)
            | str s => exact Bool.noConfusion (Except.ok.inj h)
            | name s => exact Bool.noConfusion (Except.ok.inj h)
            | arr ys => exact Bool.noConfusion (Except.ok.inj h)
            | dict es2 => exact Bool.noConfusion (Except.ok.inj h)
            | ref mm => exact Bool.noConfusion (Except.ok.inj h)
  · rintro ⟨ap, aes, apn0, sd, res, re, xo0, xv, xes, p, w, wes, st,
      hap, hApEs, hN, hApn, hFil, hRes, hResEs, hXo, hxv, hXvEs, hpmem,
      hw, hwEs, hSub, hImg⟩
    have haes_ne : aes.isEmpty = false := lookupA_ne_nil hN
    have hre_ne : re.isEmpty = false := lookupA_ne_nil hXo
    have hxes_ne : xes.isEmpty = false := by
      cases xes with
      | nil => simp at hpmem
      | cons q qs => rfl
    have hany : xes.any (fun q => xobjEntryIsImage d q.2) = true :=
      List.any_eq_true.mpr ⟨p, hpmem,
        (xobjEntryIsImage_iff d p.2).mpr ⟨w, wes, st, hw, hwEs, hSub, hImg⟩⟩
    have hap_shape := entriesOf_ok_shape hApEs
    have hres_shape := entriesOf_ok_shape hResEs
    have hxv_shape := entriesOf_ok_shape hXvEs
    have htap : truthy ap = true := by
      rcases hap_shape with rfl | rfl <;> simp [truthy, haes_ne]
    have hcn : pyContains ap kN = .ok true := by
      rcases hap_shape with rfl | rfl <;> simp [pyContains, hN]
    have hpi : pyItem d ap kN = .ok (.stream sd) := by
      rcases hap_shape with rfl | rfl <;>
        simp [pyItem, entriesOf, bind_ok, hN, hApn]
    have htres : truthy res = true := by
      rcases hres_shape with rfl | rfl <;> simp [truthy, hre_ne]
    have hpgx : pyGet res kXObject = .ok (some xo0) := by
      rw [show pyGet res kXObject = (entriesOf res).map
        (fun es => lookupA es kXObject) from rfl, hResEs, map_ok, hXo]
    simp only [apScan]
    rw [show pyGet (.dict o) kAP = .ok (lookupA o kAP) from rfl,
      bind_ok, hap]
    dsimp only
    rw [if_neg (by rw [htap]; simp : ¬((!truthy ap) = true))]
    rw [hcn, bind_ok, if_neg (by simp : ¬((!true) = true))]
    rw [hpi, bind_ok, getObject_not_ref d (.stream sd) rfl]
    dsimp only
    rw [hFil]
    dsimp only
    rw [hRes]
    dsimp only
    rw [if_neg (by rw [htres]; simp : ¬((!truthy res) = true))]
    rw [hpgx, bind_ok]
    rcases hxv with ⟨hnr, rfl⟩ | ⟨hr, hg⟩
    · rcases hxv_shape with rfl | rfl
      · simp [hxes_ne, hany]
      · simp [hxes_ne, hany]
    · cases xo0 with
      | ref nn =>
        dsimp only
        rw [hg, map_ok, bind_ok]
        rcases hxv_shape with rfl | rfl
        · simp [hxes_ne, hany]
        · simp [hxes_ne, hany]
      | null => exact absurd hr (by simp [PdfObj.isRef])
      | bool b => exact absurd hr (by simp [PdfObj.isRef])
      | num m => exact absurd hr (by simp [PdfObj.isRef])
      | str s => exact absurd hr (by simp [PdfObj.isRef])
      | name s => exact absurd hr (by simp [PdfObj.isRef])
      | arr ys => exact absurd hr (by simp [PdfObj.isRef])
      | dict es2 => exact absurd hr (by simp [PdfObj.isRef])
      | stream es2 => exact absurd hr (by simp [PdfObj.isRef])

/-- Field dictionary of the C1 counterexample: a button whose normal
appearance is an indirect reference to a content stream. -/
def c1fField : List (Str × PdfObj) :=
  [(kT, .str fSurveyImage), (kFT, .name sBtn),
   (kAP, .dict [(kN, .ref 3)])]

/-- Document of the C1 counterexample: identical to the confirming
witness document except that the appearance stream's dictionary carries
a `/Filter` entry, so PyPDF2 parses it as an `EncodedStreamObject` and
the code's `DecodedStreamObject` isinstance gate rejects it. -/
def c1fDoc : Document :=
  { objects :=
      [(3, .stream [(kFilter, .name "/FlateDecode".data),
          (kResources,
            .dict [(kXObject, .dict [("Im1".data, .ref 4)])])]),
       (4, .dict [(kSubtype, .name sImage)])]
  , trailer := [(kRoot, .dict [(kAcroForm,
      .dict [(kFields, .arr [.dict c1fField])])])] }

/-- Counterexample to C1 as stated: a located button field with no
icon-dictionary entry whose normal appearance stream's resources hold
an Image-subtype XObject — the claim's reachability path exists — yet
`detect_image_in_button` returns false, because the stream's `/Filter`
entry makes it an encoded stream and the scan is gated on
`DecodedStreamObject`. -/
theorem button_image_filtered_counterexample :
    find_field_obj c1fDoc fSurveyImage = .ok (some (.dict c1fField)) ∧
    lookupA c1fField kFT = some (.name sBtn) ∧
    pyEqStr (.name sBtn) sBtn = true ∧
    lookupA c1fField kMK = none ∧
    ImageXObjectReachable c1fDoc c1fField ∧
    detect_image_in_button c1fDoc fSurveyImage = false :=
  ⟨rfl, rfl, rfl, rfl,
   ⟨.dict [(kN, .ref 3)], [(kN, .ref 3)], .ref 3,
    [(kFilter, .name "/FlateDecode".data),
     (kResources, .dict [(kXObject, .dict [("Im1".data, .ref 4)])])],
    .dict [(kXObject, .dict [("Im1".data, .ref 4)])],
    [(kXObject, .dict [("Im1".data, .ref 4)])],
    .dict [("Im1".data, .ref 4)], .dict [("Im1".data, .ref 4)],
    [("Im1".data, .ref 4)], ("Im1".data, .ref 4),
    .dict [(kSubtype, .name sImage)], [(kSubtype, .name sImage)],
    .name sImage,
    rfl, rfl, rfl, rfl, rfl, rfl, rfl, Or.inl ⟨rfl, rfl⟩, rfl,
    List.mem_singleton.mpr rfl, rfl, rfl, rfl, rfl⟩,
   rfl⟩

/-- C1 (amended): for a located button-type field with no
icon-dictionary entry, `detect_image_in_button` returns true if and
only if an Image XObject is reachable through the resource dictionary
of a normal appearance stream that the code's `DecodedStreamObject`
gate admits — one whose stream dictionary has no `/Filter` entry — in
particular false whenever no such XObject is reachable this way,
including when the normal appearance resolves to a named/static
sub-dictionary rather than a direct content stream, and including when
the appearance stream is filtered. -/
theorem button_image_iff_decoded_ap_xobject
    (d : Document) (n : Str) (o : List (Str × PdfObj)) (ft : PdfObj)
    (hfind : find_field_obj d n = .ok (some (.dict o)))
    (hft : lookupA o kFT = some ft)
    (hbtn : pyEqStr ft sBtn = true)
    (hmk : lookupA o kMK = none ∨
           ∃ m, lookupA o kMK = some (.dict m) ∧ lookupA m kI = none) :
    detect_image_in_button d n = true ↔
      ImageXObjectReachableDecoded d o := by
  have hone : o.isEmpty = false := found_dict_truthy hfind
  have hstage : detect_body d n = (do
      let scanHit ← apScan d (.dict o)
      if scanHit then Except.ok true
      else do
        let _ ← embeddedFilesStage d
        Except.ok false) := by
    rcases hmk with hmk | ⟨m, hmk, hi⟩
    · simp [detect_body, hfind, bind_ok, truthy, hone, pyGet, entriesOf,
        map_ok, hft, optEqStr, hbtn, hmk]
    · simp [detect_body, hfind, bind_ok, truthy, hone, pyGet, entriesOf,
        map_ok, hft, optEqStr, hbtn, hmk, hi]
  unfold detect_image_in_button
  rw [hstage]
  cases hs : apScan d (.dict o) with
  | error e =>
    rw [bind_err]
    refine iff_of_false (by simp) ?_
    intro hp
    have hq := (apScan_true_iff d o).mpr hp
    rw [hs] at hq
    exact Except.noConfusion hq
  | ok b =>
    cases b with
    | true =>
      rw [bind_ok]
      exact iff_of_true rfl ((apScan_true_iff d o).mp hs)
    | false =>
      have hnp : ¬ ImageXObjectReachableDecoded d o := by
        intro hp
        have hq := (apScan_true_iff d o).mpr hp
        rw [hs] at hq
        exact Bool.noConfusion (Except.ok.inj hq)
      rw [bind_ok]
      dsimp only
      cases he : embeddedFilesStage d with
      | ok u => exact iff_of_false (fun hcontra => Bool.noConfusion hcontra) hnp
      | error e => exact iff_of_false (fun hcontra => Bool.noConfusion hcontra) hnp

/-- Field dictionary of the C1 witness: a button whose normal appearance
is an indirect reference to a content stream. -/
def w1field : List (Str × PdfObj) :=
  [(kT, .str fSurveyImage), (kFT, .name sBtn),
   (kAP, .dict [(kN, .ref 3)])]

/-- Document of the C1 witness: the unfiltered appearance stream's
resources hold one XObject of subtype Image. -/
def w1doc : Document :=
  { objects :=
      [(3, .stream [(kResources,
          .dict [(kXObject, .dict [("Im1".data, .ref 4)])])]),
       (4, .dict [(kSubtype, .name sImage)])]
  , trailer := [(kRoot, .dict [(kAcroForm,
      .dict [(kFields, .arr [.dict w1field])])])] }

/-- Witness for the amended C1 at `w1doc`: the decoded-stream
reachability path exists and the detector returns true. -/
theorem button_image_iff_decoded_ap_xobject_witness :
    detect_image_in_button w1doc fSurveyImage = true :=
  (button_image_iff_decoded_ap_xobject w1doc fSurveyImage w1field
    (.name sBtn) (by rfl) (by rfl) (by rfl) (Or.inl (by rfl))).mpr
    ⟨.dict [(kN, .ref 3)], [(kN, .ref 3)], .ref 3,
     [(kResources, .dict [(kXObject, .dict [("Im1".data, .ref 4)])])],
     .dict [(kXObject, .dict [("Im1".data, .ref 4)])],
     [(kXObject, .dict [("Im1".data, .ref 4)])],
     .dict [("Im1".data, .ref 4)], .dict [("Im1".data, .ref 4)],
     [("Im1".data, .ref 4)], ("Im1".data, .ref 4),
     .dict [(kSubtype, .name sImage)], [(kSubtype, .name sImage)],
     .name sImage,
     rfl, rfl, rfl, rfl, rfl, rfl, rfl, rfl, Or.inl ⟨rfl, rfl⟩, rfl,
     List.mem_singleton.mpr rfl, rfl, rfl, rfl, rfl⟩

/-! ## Claim C8 (corrected): option-list serialization round trip -/

/-- The round trip of C8: serialize the option list as emitted per
document (source line 198), run the parser's value extraction and
normalization over it (parser lines 44 and 50-53), and re-split the
result on commas. -/
def optionsRoundTrip (opts : List Str) : List Str :=
  splitOnChar ',' (parseOptionsValue (stripStr (serializeOptions opts)))

/-- Counterexample to C8 as stated: the empty option list (entries
vacuously comma-free) serializes to the text `None`, which the parser
normalizes to the empty string, and re-splitting the empty string yields
a one-element list containing the empty string — not the original empty
list. -/
theorem options_roundtrip_counterexample :
    optionsRoundTrip [] = [[]] ∧
    decide (optionsRoundTrip [] = ([] : List Str)) = false :=
  ⟨rfl, rfl⟩

lemma splitOnCharAux_no_sep (c : Char) :
    ∀ (x acc : Str), c ∉ x →
      splitOnCharAux c x acc = [acc.reverse ++ x] := by
  intro x
  induction x with
  | nil => intro acc _; simp [splitOnCharAux]
  | cons a rest ih =>
    intro acc hx
    have ha : ¬(a = c) := fun h => hx (h ▸ List.mem_cons_self a rest)
    have hr : c ∉ rest := fun h => hx (List.mem_cons_of_mem a h)
    simp [splitOnCharAux, ha, ih (a :: acc) hr]

lemma splitOnCharAux_sep (c : Char) :
    ∀ (x t acc : Str), c ∉ x →
      splitOnCharAux c (x ++ c :: t) acc =
        (acc.reverse ++ x) :: splitOnCharAux c t [] := by
  intro x
  induction x with
  | nil => intro t acc _; simp [splitOnCharAux]
  | cons a rest ih =>
    intro t acc hx
    have ha : ¬(a = c) := fun h => hx (h ▸ List.mem_cons_self a rest)
    have hr : c ∉ rest := fun h => hx (List.mem_cons_of_mem a h)
    simp [splitOnCharAux, ha, ih t (a :: acc) hr]

lemma split_join (c : Char) :
    ∀ opts : List Str, opts ≠ [] → (∀ s ∈ opts, c ∉ s) →
      splitOnChar c (joinSep [c] opts) = opts := by
  intro opts
  induction opts with
  | nil => intro h _; exact absurd rfl h
  | cons x rest ih =>
    intro _ hsep
    have hx : c ∉ x := hsep x (List.mem_cons_self _ _)
    cases rest with
    | nil =>
      simp only [joinSep, splitOnChar]
      rw [splitOnCharAux_no_sep c x [] hx]
      rfl
    | cons y rest2 =>
      have hrest : ∀ s ∈ y :: rest2, c ∉ s :=
        fun s hs => hsep s (List.mem_cons_of_mem _ hs)
      simp only [joinSep, splitOnChar]
      rw [show x ++ [c] ++ joinSep [c] (y :: rest2) =
        x ++ c :: joinSep [c] (y :: rest2) from by simp]
      rw [splitOnCharAux_sep c x (joinSep [c] (y :: rest2)) [] hx]
      simp only [List.reverse_nil, List.nil_append]
      rw [show splitOnCharAux c (joinSep [c] (y :: rest2)) [] =
        splitOnChar c (joinSep [c] (y :: rest2)) from rfl]
      rw [ih (by simp) hrest]

lemma replaceCS_no_comma :
    ∀ x : Str, ',' ∉ x → replaceCS x = x := by
  intro x
  induction x with
  | nil => intro _; rfl
  | cons c rest ih =>
    intro hx
    have hc : ¬(c = ',') := fun h => hx (h ▸ List.mem_cons_self c rest)
    have hr : ',' ∉ rest := fun h => hx (List.mem_cons_of_mem c h)
    cases rest with
    | nil => rfl
    | cons c2 rest2 =>
      rw [show replaceCS (c :: c2 :: rest2) =
        if c = ',' ∧ c2 = ' ' then ',' :: replaceCS rest2
        else c :: replaceCS (c2 :: rest2) from rfl]
      rw [if_neg (fun hand => hc hand.1)]
      rw [ih hr]

lemma replaceCS_pattern :
    ∀ (x t : Str), ',' ∉ x →
      replaceCS (x ++ ',' :: ' ' :: t) = x ++ ',' :: replaceCS t := by
  intro x
  induction x with
  | nil =>
    intro t _
    simp only [List.nil_append]
    rw [show replaceCS (',' :: ' ' :: t) =
      if (',' : Char) = ',' ∧ (' ' : Char) = ' ' then ',' :: replaceCS t
      else ',' :: replaceCS (' ' :: t) from rfl]
    rw [if_pos ⟨rfl, rfl⟩]
  | cons c rest ih =>
    intro t hx
    have hc : ¬(c = ',') := fun h => hx (h ▸ List.mem_cons_self c rest)
    have hr : ',' ∉ rest := fun h => hx (List.mem_cons_of_mem c h)
    cases rest with
    | nil =>
      rw [show ([c] : Str) ++ ',' :: ' ' :: t = c :: ',' :: ' ' :: t
        from rfl]
      rw [show replaceCS (c :: ',' :: ' ' :: t) =
        if c = ',' ∧ (',' : Char) = ' ' then ',' :: replaceCS (' ' :: t)
        else c :: replaceCS (',' :: ' ' :: t) from rfl]
      rw [if_neg (fun hand => hc hand.1)]
      have := ih t (by simp)
      simp only [List.nil_append] at this
      rw [this]
      rfl
    | cons c2 rest2 =>
      rw [show (c :: c2 :: rest2 : Str) ++ ',' :: ' ' :: t =
        c :: (c2 :: rest2 ++ ',' :: ' ' :: t) from rfl]
      rw [show replaceCS (c :: (c2 :: rest2 ++ ',' :: ' ' :: t)) =
        if c = ',' ∧ c2 = ' ' then
          ',' :: replaceCS (rest2 ++ ',' :: ' ' :: t)
        else c :: replaceCS (c2 :: rest2 ++ ',' :: ' ' :: t)
        from rfl]
      rw [if_neg (fun hand => hc hand.1)]
      rw [ih t hr]
      rfl

lemma replaceCS_join :
    ∀ opts : List Str, opts ≠ [] → (∀ s ∈ opts, ',' ∉ s) →
      replaceCS (joinSep [',', ' '] opts) = joinSep [','] opts := by
  intro opts
  induction opts with
  | nil => intro h _; exact absurd rfl h
  | cons x rest ih =>
    intro _ hcomma
    have hx : ',' ∉ x := hcomma x (List.mem_cons_self _ _)
    cases rest with
    | nil => exact replaceCS_no_comma x hx
    | cons y rest2 =>
      have hrest : ∀ s ∈ y :: rest2, ',' ∉ s :=
        fun s hs => hcomma s (List.mem_cons_of_mem _ hs)
      simp only [joinSep]
      rw [show x ++ [',', ' '] ++ joinSep [',', ' '] (y :: rest2) =
        x ++ ',' :: ' ' :: joinSep [',', ' '] (y :: rest2) from by simp]
      rw [replaceCS_pattern x _ hx]
      rw [ih (by simp) hrest]
      simp

lemma joinSep_cs_nil :
    ∀ opts : List Str, opts ≠ [] → joinSep [',', ' '] opts = [] →
      opts = [[]] := by
  intro opts
  cases opts with
  | nil => intro h _; exact absurd rfl h
  | cons x rest =>
    intro _ hJ
    cases rest with
    | nil =>
      simp only [joinSep] at hJ
      rw [hJ]
    | cons y rest2 =>
      simp only [joinSep] at hJ
      exact absurd hJ (by simp)

/-- C8 as amended: the round trip reproduces the original option list
for every nonempty comma-free option list whose serialization is not
itself the text `None` and carries no leading or trailing whitespace
(the parser strips the value and treats `None` and the empty text as the
empty option cell, so the empty list, a list serializing to `None`, and
edge whitespace are not recoverable). -/
theorem options_roundtrip_amended (opts : List Str)
    (hne : opts ≠ [])
    (hcomma : ∀ s ∈ opts, ',' ∉ s)
    (hnone : serializeOptions opts ≠ "None".data)
    (hstrip : stripStr (serializeOptions opts) = serializeOptions opts) :
    optionsRoundTrip opts = opts := by
  unfold optionsRoundTrip
  rw [hstrip]
  have hie : opts.isEmpty = false := by
    cases opts with
    | nil => exact absurd rfl hne
    | cons x rest => rfl
  have hser : serializeOptions opts = joinSep [',', ' '] opts := by
    unfold serializeOptions
    rw [hie]
    rfl
  by_cases hJ : joinSep [',', ' '] opts = []
  · have hopts : opts = [[]] := joinSep_cs_nil opts hne hJ
    subst hopts
    rfl
  · have hJe : (joinSep [',', ' '] opts).isEmpty = false := by
      cases hJ2 : joinSep [',', ' '] opts with
      | nil => exact absurd hJ2 hJ
      | cons a b => rfl
    have hJn : decide (joinSep [',', ' '] opts = "None".data) = false :=
      decide_eq_false (fun h => hnone (hser.trans h))
    rw [hser]
    unfold parseOptionsValue
    rw [if_neg (by simp [hJn, hJe])]
    rw [replaceCS_join opts hne hcomma]
    exact split_join ',' opts hne hcomma

/-- Witness for the amended C8 at a concrete two-option list. -/
theorem options_roundtrip_amended_witness :
    optionsRoundTrip ["Ada".data, "Boise".data] =
      ["Ada".data, "Boise".data] :=
  options_roundtrip_amended ["Ada".data, "Boise".data]
    (by decide) (by decide) (by decide) (by decide)

/-! ## Claim C3: bool/flag consistency of a session record and its
preservation through the console-output re-parser -/

lemma startsL_self_append : ∀ pat s : Str, startsL pat (pat ++ s) = true := by
  intro pat
  induction pat with
  | nil => intro s; rfl
  | cons p pr ih => intro s; simp [startsL, ih]

lemma startsL_head_ne (p0 : Char) (pr : Str) (c : Char) (t : Str)
    (h : ¬(p0 = c)) : startsL (p0 :: pr) (c :: t) = false := by
  simp [startsL, h]

lemma hasSub_here : ∀ (a pat s : Str), hasSub pat (a ++ (pat ++ s)) = true := by
  intro a
  induction a with
  | nil =>
    intro pat s
    cases hps : pat ++ s with
    | nil =>
      have hp : pat = [] := (List.append_eq_nil.mp hps).1
      simp [hp, hasSub]
    | cons c t =>
      simp only [List.nil_append, hps, hasSub]
      rw [← hps, startsL_self_append]
      rfl
  | cons c a2 ih =>
    intro pat s
    simp only [List.cons_append, hasSub, List.append_eq]
    rw [ih pat s]
    simp

lemma hasSub_head_skip (hc : Char) (pr : Str) :
    ∀ (a s : Str), hc ∉ a →
      hasSub (hc :: pr) (a ++ s) = hasSub (hc :: pr) s := by
  intro a
  induction a with
  | nil => intro s _; rfl
  | cons c a2 ih =>
    intro s ha
    have h1 : ¬(hc = c) :=
      fun h => ha (h ▸ List.mem_cons_self c a2)
    have h2 : hc ∉ a2 := fun h => ha (List.mem_cons_of_mem c h)
    simp only [List.cons_append, hasSub, startsL_head_ne hc pr c _ h1,
      Bool.false_or]
    exact ih s h2

lemma hasSub_single_of_mem {c : Char} {s : Str} (h : c ∈ s) :
    hasSub [c] s = true := by
  induction s with
  | nil => simp at h
  | cons x rest ih =>
    rcases List.mem_cons.mp h with rfl | h2
    · simp [hasSub, startsL]
    · simp [hasSub, ih h2]

lemma splitFirstAux_pre :
    ∀ (a t acc : Str), ':' ∉ a →
      splitFirstAux ':' (a ++ ':' :: t) acc =
        some (acc.reverse ++ a, t) := by
  intro a
  induction a with
  | nil => intro t acc _; simp [splitFirstAux]
  | cons c a2 ih =>
    intro t acc ha
    have h1 : ¬(c = ':') :=
      fun h => ha (h ▸ List.mem_cons_self c a2)
    have h2 : ':' ∉ a2 := fun h => ha (List.mem_cons_of_mem c h)
    simp only [List.cons_append, splitFirstAux, h1, if_false,
      List.append_eq]
    rw [ih t (c :: acc) h2]
    simp

lemma stripStr_cons_ws {c : Char} (hc : isPyWs c = true) (v : Str) :
    stripStr (c :: v) = stripStr v := by
  simp [stripStr, List.dropWhile_cons, hc]

lemma stripStr_front_back {s : Str} {c : Char} {t : Str}
    (hc : isPyWs c = false) (hs : s = c :: t) {d : Char} {u : Str}
    (hd : isPyWs d = false) (hs2 : s = u ++ [d]) : stripStr s = s := by
  have hfront : s.dropWhile isPyWs = s := by
    rw [hs, List.dropWhile_cons, hc]
    simp
  unfold stripStr
  rw [hfront]
  have hrev : s.reverse = d :: u.reverse := by
    rw [hs2, List.reverse_append]
    rfl
  rw [hrev, List.dropWhile_cons, hd]
  simp [← hrev]

lemma lastColonIdx_snoc : ∀ x : Str, lastColonIdx (x ++ [':']) =
    some x.length := by
  intro x
  induction x with
  | nil => rfl
  | cons c x2 ih =>
    simp only [List.cons_append, lastColonIdx, List.append_eq, ih]
    rfl

lemma captureGroup_snoc (x : Str) (hx : x ≠ []) :
    captureGroup (x ++ [':']) = some x := by
  unfold captureGroup
  rw [lastColonIdx_snoc]
  have hlen : 1 ≤ x.length := by
    cases x with
    | nil => exact absurd rfl hx
    | cons a b => simp
  dsimp only
  rw [if_pos hlen, List.take_left]

lemma patFor_eq : patFor = 'E' :: "xtraction results for ".data := rfl

lemma needle_eq : needle = 'E' :: "xtraction results for".data := rfl

lemma searchFilename_skip : ∀ (a s : Str), 'E' ∉ a →
    searchFilename (a ++ s) = searchFilename s := by
  intro a
  induction a with
  | nil => intro s _; rfl
  | cons c a2 ih =>
    intro s ha
    have h1 : ¬('E' = c) :=
      fun h => ha (h ▸ List.mem_cons_self c a2)
    have h2 : 'E' ∉ a2 := fun h => ha (List.mem_cons_of_mem c h)
    simp only [List.cons_append, searchFilename, patFor_eq,
      startsL_head_ne 'E' _ c _ h1, Bool.false_eq_true, if_false,
      List.append_eq]
    exact ih s h2

lemma searchFilename_hit (x : Str) (hx : x ≠ []) :
    searchFilename (patFor ++ (x ++ [':'])) = some x := by
  show searchFilename
    ('E' :: ("xtraction results for ".data ++ (x ++ [':']))) = some x
  rw [searchFilename.eq_def]
  dsimp only
  have hc : startsL patFor
      ('E' :: ("xtraction results for ".data ++ (x ++ [':']))) = true :=
    startsL_self_append patFor (x ++ [':'])
  have hdrop : ('E' :: ("xtraction results for ".data ++ (x ++ [':']))).drop
      patFor.length = x ++ [':'] :=
    List.drop_left patFor (x ++ [':'])
  rw [hc, hdrop, captureGroup_snoc x hx]
  simp

/-- The record opened by a header line. -/
def newRec (fn : Str) : ParsedRecord :=
  ⟨fn, none, none, none, none, none, none, none, none, none, none⟩

lemma updateRecord_doc_num (c : ParsedRecord) (v : Str) :
    updateRecord c "Doc Num".data v = { c with doc_num := some v } := by
  unfold updateRecord
  rw [if_pos rfl]

lemma updateRecord_corner (c : ParsedRecord) (v : Str) :
    updateRecord c "Corner of Section".data v =
      { c with corner_of_section := some v } := by
  unfold updateRecord
  rw [if_neg (by decide), if_pos rfl]

lemma updateRecord_township (c : ParsedRecord) (v : Str) :
    updateRecord c "Township (value)".data v =
      { c with township := some v } := by
  unfold updateRecord
  rw [if_neg (by decide), if_neg (by decide), if_pos rfl]

lemma updateRecord_range (c : ParsedRecord) (v : Str) :
    updateRecord c "Range (value)".data v = { c with range := some v } := by
  unfold updateRecord
  rw [if_neg (by decide), if_neg (by decide), if_neg (by decide),
    if_pos rfl]

lemma updateRecord_county (c : ParsedRecord) (v : Str) :
    updateRecord c "County (value)".data v = { c with county := some v } := by
  unfold updateRecord
  rw [if_neg (by decide), if_neg (by decide), if_neg (by decide),
    if_neg (by decide), if_pos rfl]

lemma updateRecord_bool (c : ParsedRecord) (v : Str) :
    updateRecord c "Image present (bool)".data v =
      { c with image_present_bool := some (decide (v = "True".data)) } := by
  unfold updateRecord
  rw [if_neg (by decide), if_neg (by decide), if_neg (by decide),
    if_neg (by decide), if_neg (by decide), if_pos rfl]

lemma updateRecord_flag (c : ParsedRecord) (v : Str) :
    updateRecord c "Image present (Y/N)".data v =
      { c with image_present_flag := some v } := by
  unfold updateRecord
  rw [if_neg (by decide), if_neg (by decide), if_neg (by decide),
    if_neg (by decide), if_neg (by decide), if_neg (by decide),
    if_pos rfl]

lemma updateRecord_topts (c : ParsedRecord) (v : Str) :
    updateRecord c "Township options".data v =
      { c with township_options := some (parseOptionsValue v) } := by
  unfold updateRecord
  rw [if_neg (by decide), if_neg (by decide), if_neg (by decide),
    if_neg (by decide), if_neg (by decide), if_neg (by decide),
    if_neg (by decide), if_pos rfl]

lemma updateRecord_ropts (c : ParsedRecord) (v : Str) :
    updateRecord c "Range options".data v =
      { c with range_options := some (parseOptionsValue v) } := by
  unfold updateRecord
  rw [if_neg (by decide), if_neg (by decide), if_neg (by decide),
    if_neg (by decide), if_neg (by decide), if_neg (by decide),
    if_neg (by decide), if_neg (by decide), if_pos rfl]

lemma updateRecord_copts (c : ParsedRecord) (v : Str) :
    updateRecord c "County options".data v =
      { c with county_options := some (parseOptionsValue v) } := by
  unfold updateRecord
  rw [if_neg (by decide), if_neg (by decide), if_neg (by decide),
    if_neg (by decide), if_neg (by decide), if_neg (by decide),
    if_neg (by decide), if_neg (by decide), if_neg (by decide),
    if_pos rfl]

/-- A header line of the console output closes any open record and
opens a fresh one carrying the captured filename. -/
lemma parseLine_header (res : List ParsedRecord) (cur : Option ParsedRecord)
    (ts fname : Str) (hE : 'E' ∉ ts) (hfn : fname ≠ []) :
    parseLine (res, cur)
      ("[".data ++ ts ++ "] INFO: Extraction results for ".data ++
        fname ++ ":".data) =
      ((match cur with
        | some c => res ++ [c]
        | none => res), some (newRec fname)) := by
  have hpre : 'E' ∉ "[".data ++ ts ++ "] INFO: ".data := by
    intro hmem
    rcases List.mem_append.mp hmem with hmem2 | hmem2
    · rcases List.mem_append.mp hmem2 with hmem3 | hmem3
      · simp at hmem3
      · exact hE hmem3
    · simp at hmem2
  have hline : "[".data ++ ts ++ "] INFO: Extraction results for ".data ++
      fname ++ ":".data =
      ("[".data ++ ts ++ "] INFO: ".data) ++
        (patFor ++ (fname ++ [':'])) := by
    rw [show "] INFO: Extraction results for ".data =
      "] INFO: ".data ++ patFor from rfl]
    simp [List.append_assoc]
  have hhas : hasSub needle
      ("[".data ++ ts ++ "] INFO: Extraction results for ".data ++
        fname ++ ":".data) = true := by
    rw [hline, show patFor = needle ++ [' '] from rfl]
    rw [show ("[".data ++ ts ++ "] INFO: ".data) ++
      ((needle ++ [' ']) ++ (fname ++ [':'])) =
      ("[".data ++ ts ++ "] INFO: ".data) ++
      (needle ++ ([' '] ++ (fname ++ [':']))) from by
        simp [List.append_assoc]]
    exact hasSub_here _ needle _
  have hsearch : searchFilename
      ("[".data ++ ts ++ "] INFO: Extraction results for ".data ++
        fname ++ ":".data) = some fname := by
    rw [hline, searchFilename_skip _ _ hpre, searchFilename_hit fname hfn]
  unfold parseLine
  rw [hhas]
  simp only [if_true]
  rw [hsearch]
  cases cur with
  | some c => rfl
  | none => rfl

/-- A plain key-value line of the console output updates the open
record through the key map, storing the stripped value. -/
lemma parseLine_value (res : List ParsedRecord) (c : ParsedRecord)
    (kw v : Str) (hkE : 'E' ∉ kw) (hkC : ':' ∉ kw)
    (hv : hasSub needle v = false) :
    parseLine (res, some c) (kw ++ ": ".data ++ v) =
      (res, some (updateRecord c (stripStr kw) (stripStr v))) := by
  have hline : kw ++ ": ".data ++ v = (kw ++ [':', ' ']) ++ v := by
    simp [List.append_assoc]
  have hkE2 : 'E' ∉ kw ++ [':', ' '] := by
    intro hmem
    rcases List.mem_append.mp hmem with hmem2 | hmem2
    · exact hkE hmem2
    · simp at hmem2
  have hhas : hasSub needle (kw ++ ": ".data ++ v) = false := by
    rw [hline, needle_eq, hasSub_head_skip 'E' _ _ _ hkE2, ← needle_eq]
    exact hv
  have hcolon : hasSub [':'] (kw ++ ": ".data ++ v) = true := by
    apply hasSub_single_of_mem
    rw [hline]
    exact List.mem_append.mpr (Or.inl
      (List.mem_append.mpr (Or.inr (List.mem_cons_self _ _))))
  have hsplit : splitFirstColon (kw ++ ": ".data ++ v) =
      some (kw, ' ' :: v) := by
    rw [show kw ++ ": ".data ++ v = kw ++ ':' :: (' ' :: v) from by
      simp [List.append_assoc]]
    unfold splitFirstColon
    rw [splitFirstAux_pre kw (' ' :: v) [] hkC]
    simp
  unfold parseLine
  rw [hhas]
  simp only [Bool.false_eq_true, if_false, Option.isSome_some,
    Bool.true_and]
  rw [hcolon]
  simp only [if_true]
  rw [hsplit]
  dsimp only
  rw [stripStr_cons_ws (by rfl) v]

/-- The dashed separator line closes the open record. -/
lemma parseLine_sep (res : List ParsedRecord) (c : ParsedRecord) :
    parseLine (res, some c) (List.replicate 50 '-') = (res ++ [c], none) := by
  unfold parseLine
  rw [show hasSub needle (List.replicate 50 '-') = false from by decide]
  rw [show hasSub [':'] (List.replicate 50 '-') = false from by decide]
  rw [show hasSub "---".data (List.replicate 50 '-') = true from by decide]
  simp

lemma joinSep_snoc (sep : Str) :
    ∀ (xs : List Str) (y : Str), xs ≠ [] →
      joinSep sep (xs ++ [y]) = joinSep sep xs ++ sep ++ y := by
  intro xs
  induction xs with
  | nil => intro y h; exact absurd rfl h
  | cons x rest ih =>
    intro y _
    cases rest with
    | nil => rfl
    | cons z rest2 =>
      have hmid := ih y (by simp)
      simp only [List.cons_append, joinSep, List.append_eq] at hmid ⊢
      rw [hmid]
      simp [List.append_assoc]

lemma process_pdf_flag {src : Option Document} {fn : Str}
    {r : ExtractionResult} (h : process_pdf src fn = some r) :
    r.image_present_flag =
      (if r.image_present_bool then "Y".data else "N".data) ∧
    r.filename = fn := by
  cases src with
  | none => exact Option.noConfusion h
  | some reader =>
    unfold process_pdf at h
    dsimp only at h
    cases hg : get_fields_dict reader with
    | error e => rw [hg] at h; exact Option.noConfusion h
    | ok fd =>
      rw [hg] at h
      have h2 := Option.some.inj h
      subst h2
      exact ⟨rfl, rfl⟩

/-- Folding the parser over a block of key-value lines updates the open
record through the key map, line by line. -/
lemma foldl_value_lines (res : List ParsedRecord) :
    ∀ (kvs : List (Str × Str)) (c : ParsedRecord),
      (∀ kv ∈ kvs, 'E' ∉ kv.1 ∧ ':' ∉ kv.1 ∧
        hasSub needle kv.2 = false) →
      List.foldl parseLine (res, some c)
        (kvs.map (fun kv => kv.1 ++ ": ".data ++ kv.2)) =
        (res, some (kvs.foldl
          (fun acc kv => updateRecord acc (stripStr kv.1) (stripStr kv.2))
          c)) := by
  intro kvs
  induction kvs with
  | nil => intro c _; rfl
  | cons kv rest ih =>
    intro c hall
    obtain ⟨h1, h2, h3⟩ := hall kv (List.mem_cons_self _ _)
    have hrest := fun kv2 hkv2 => hall kv2 (List.mem_cons_of_mem _ hkv2)
    simp only [List.map_cons, List.foldl_cons]
    rw [parseLine_value res c kv.1 kv.2 h1 h2 h3]
    exact ih _ hrest

/-- Cleanliness conditions under which one record's console output
re-parses faithfully: the timestamp has no newline and no capital E, the
filename is nonempty without newline, and every printed value (the five
field values and the three serialized option lists) contains neither a
newline nor the parser's header sentinel text. -/
def CleanVal (s : Str) : Prop := '\n' ∉ s ∧ hasSub needle s = false

def CleanForReparse (ts : Str) (r : ExtractionResult) : Prop :=
  '\n' ∉ ts ∧ 'E' ∉ ts ∧ '\n' ∉ r.filename ∧ r.filename ≠ [] ∧
  CleanVal r.doc_num ∧ CleanVal r.corner_of_section ∧
  CleanVal r.township ∧ CleanVal r.range ∧ CleanVal r.county ∧
  CleanVal (serializeOptions r.township_options) ∧
  CleanVal (serializeOptions r.range_options) ∧
  CleanVal (serializeOptions r.county_options)

/-- The key-value pairs of one record's ten value lines, in print
order. -/
def kvLines (r : ExtractionResult) : List (Str × Str) :=
  [("Doc Num".data, r.doc_num),
   ("Corner of Section".data, r.corner_of_section),
   ("Township (value)".data, r.township),
   ("Range (value)".data, r.range),
   ("County (value)".data, r.county),
   ("Image present (bool)".data, pyBoolStr r.image_present_bool),
   ("Image present (Y/N)".data, r.image_present_flag),
   ("Township options".data, serializeOptions r.township_options),
   ("Range options".data, serializeOptions r.range_options),
   ("County options".data, serializeOptions r.county_options)]

/-- The record the parser assembles from one cleanly re-parsed console
block. -/
def reparsedRecord (r : ExtractionResult) : ParsedRecord :=
  (kvLines r).foldl
    (fun acc kv => updateRecord acc (stripStr kv.1) (stripStr kv.2))
    (newRec r.filename)

/-- C3 as amended: every record produced by `process_pdf` has its Y/N
flag consistent with its boolean; and re-parsing the record's console
output preserves both outputs — hence their consistency — provided the
printed values are clean (no embedded newline and no header sentinel
text; a value violating this can forge extra physical lines and break
the parsed record's consistency, as the counterexample shows). -/
theorem flag_bool_consistency_amended :
    (∀ (src : Option Document) (fn : Str) (r : ExtractionResult),
        process_pdf src fn = some r →
        (r.image_present_flag = "Y".data ↔ r.image_present_bool = true) ∧
        (r.image_present_flag = "N".data ↔ r.image_present_bool = false)) ∧
    (∀ (ts : Str) (src : Option Document) (fn : Str) (r : ExtractionResult),
        process_pdf src fn = some r →
        CleanForReparse ts r →
        parse_batch_output (console_output ts r) = [reparsedRecord r] ∧
        (reparsedRecord r).image_present_bool =
          some r.image_present_bool ∧
        (reparsedRecord r).image_present_flag =
          some r.image_present_flag ∧
        ((reparsedRecord r).image_present_flag = some "Y".data ↔
          (reparsedRecord r).image_present_bool = some true)) := by
  have hpartA : ∀ (src : Option Document) (fn : Str) (r : ExtractionResult),
      process_pdf src fn = some r →
      (r.image_present_flag = "Y".data ↔ r.image_present_bool = true) ∧
      (r.image_present_flag = "N".data ↔ r.image_present_bool = false) := by
    intro src fn r h
    obtain ⟨hflag, _⟩ := process_pdf_flag h
    cases hb : r.image_present_bool with
    | true =>
      rw [hflag, hb]
      exact ⟨iff_of_true rfl rfl, iff_of_false (by decide) (by decide)⟩
    | false =>
      rw [hflag, hb]
      exact ⟨iff_of_false (by decide) (by decide), iff_of_true rfl rfl⟩
  refine ⟨hpartA, ?_⟩
  intro ts src fn r hproc hclean
  obtain ⟨hnlts, hEts, hnlfn, hfnne, hdv, hcv, htv, hrv, hcyv, hto, hro,
    hco⟩ := hclean
  obtain ⟨hflag, hfneq⟩ := process_pdf_flag hproc
  have hboolclean : hasSub needle (pyBoolStr r.image_present_bool) = false := by
    cases hb : r.image_present_bool <;> decide
  have hflagclean : hasSub needle r.image_present_flag = false := by
    rw [hflag]
    cases hb : r.image_present_bool <;> decide
  have hboolnl : '\n' ∉ pyBoolStr r.image_present_bool := by
    cases hb : r.image_present_bool <;> decide
  have hflagnl : '\n' ∉ r.image_present_flag := by
    rw [hflag]
    cases hb : r.image_present_bool <;> decide
  have hnonl : ∀ l ∈ render_lines ts r, '\n' ∉ l := by
    intro l hl
    simp only [render_lines, List.mem_cons, List.not_mem_nil,
      or_false] at hl
    rcases hl with rfl | rfl | rfl | rfl | rfl | rfl | rfl | rfl | rfl |
      rfl | rfl | rfl
    · simp only [List.mem_append, not_or]
      exact ⟨⟨⟨⟨by decide, hnlts⟩, by decide⟩, hnlfn⟩, by decide⟩
    · simp only [List.mem_append, not_or]
      exact ⟨by decide, hdv.1⟩
    · simp only [List.mem_append, not_or]
      exact ⟨by decide, hcv.1⟩
    · simp only [List.mem_append, not_or]
      exact ⟨by decide, htv.1⟩
    · simp only [List.mem_append, not_or]
      exact ⟨by decide, hrv.1⟩
    · simp only [List.mem_append, not_or]
      exact ⟨by decide, hcyv.1⟩
    · simp only [List.mem_append, not_or]
      exact ⟨by decide, hboolnl⟩
    · simp only [List.mem_append, not_or]
      exact ⟨by decide, hflagnl⟩
    · simp only [List.mem_append, not_or]
      exact ⟨by decide, hto.1⟩
    · simp only [List.mem_append, not_or]
      exact ⟨by decide, hro.1⟩
    · simp only [List.mem_append, not_or]
      exact ⟨by decide, hco.1⟩
    · decide
  obtain ⟨t0, hfront⟩ : ∃ t0, console_output ts r = '[' :: t0 := ⟨_, rfl⟩
  have htake_ne : (render_lines ts r).take 11 ≠ [] := by
    simp [render_lines]
  have hback : console_output ts r =
      (joinSep ['\n'] ((render_lines ts r).take 11) ++ '\n' ::
        List.replicate 49 '-') ++ ['-'] := by
    rw [show console_output ts r = joinSep ['\n']
      ((render_lines ts r).take 11 ++ [List.replicate 50 '-']) from rfl]
    rw [joinSep_snoc ['\n'] ((render_lines ts r).take 11)
      (List.replicate 50 '-') htake_ne]
    rw [show List.replicate 50 '-' =
      List.replicate 49 '-' ++ ['-'] from rfl]
    simp [List.append_assoc]
  have hstrip : stripStr (console_output ts r) = console_output ts r :=
    stripStr_front_back (by decide) hfront (by decide) hback
  have hsplitlines : splitOnChar '\n' (console_output ts r) =
      render_lines ts r := by
    rw [show console_output ts r =
      joinSep ['\n'] (render_lines ts r) from rfl]
    exact split_join '\n' (render_lines ts r) (by simp [render_lines])
      hnonl
  have hkv : ∀ kv ∈ kvLines r, 'E' ∉ kv.1 ∧ ':' ∉ kv.1 ∧
      hasSub needle kv.2 = false := by
    intro kv hkvm
    simp only [kvLines, List.mem_cons, List.not_mem_nil, or_false] at hkvm
    rcases hkvm with rfl | rfl | rfl | rfl | rfl | rfl | rfl | rfl |
      rfl | rfl
    · exact ⟨by dsimp only; decide, by dsimp only; decide, hdv.2⟩
    · exact ⟨by dsimp only; decide, by dsimp only; decide, hcv.2⟩
    · exact ⟨by dsimp only; decide, by dsimp only; decide, htv.2⟩
    · exact ⟨by dsimp only; decide, by dsimp only; decide, hrv.2⟩
    · exact ⟨by dsimp only; decide, by dsimp only; decide, hcyv.2⟩
    · exact ⟨by dsimp only; decide, by dsimp only; decide, hboolclean⟩
    · exact ⟨by dsimp only; decide, by dsimp only; decide, hflagclean⟩
    · exact ⟨by dsimp only; decide, by dsimp only; decide, hto.2⟩
    · exact ⟨by dsimp only; decide, by dsimp only; decide, hro.2⟩
    · exact ⟨by dsimp only; decide, by dsimp only; decide, hco.2⟩
  have hform : render_lines ts r =
      ("[".data ++ ts ++ "] INFO: Extraction results for ".data ++
        r.filename ++ ":".data) ::
      (((kvLines r).map (fun kv => kv.1 ++ ": ".data ++ kv.2)) ++
        [List.replicate 50 '-']) := rfl
  have hC : List.foldl parseLine ([], none) (render_lines ts r) =
      ([reparsedRecord r], none) := by
    rw [hform, List.foldl_cons,
      parseLine_header [] none ts r.filename hEts hfnne]
    dsimp only
    rw [List.foldl_append,
      foldl_value_lines [] (kvLines r) (newRec r.filename) hkv,
      List.foldl_cons, parseLine_sep, List.foldl_nil]
    rfl
  have hparse : parse_batch_output (console_output ts r) =
      [reparsedRecord r] := by
    unfold parse_batch_output
    rw [hstrip, hsplitlines]
    dsimp only
    rw [hC]
  have hFbool : (reparsedRecord r).image_present_bool =
      some r.image_present_bool := by
    simp only [reparsedRecord, kvLines, List.foldl_cons, List.foldl_nil,
      show stripStr "Doc Num".data = "Doc Num".data from by decide,
      show stripStr "Corner of Section".data =
        "Corner of Section".data from by decide,
      show stripStr "Township (value)".data =
        "Township (value)".data from by decide,
      show stripStr "Range (value)".data =
        "Range (value)".data from by decide,
      show stripStr "County (value)".data =
        "County (value)".data from by decide,
      show stripStr "Image present (bool)".data =
        "Image present (bool)".data from by decide,
      show stripStr "Image present (Y/N)".data =
        "Image present (Y/N)".data from by decide,
      show stripStr "Township options".data =
        "Township options".data from by decide,
      show stripStr "Range options".data =
        "Range options".data from by decide,
      show stripStr "County options".data =
        "County options".data from by decide,
      updateRecord_doc_num, updateRecord_corner, updateRecord_township,
      updateRecord_range, updateRecord_county, updateRecord_bool,
      updateRecord_flag, updateRecord_topts, updateRecord_ropts,
      updateRecord_copts]
    cases hb : r.image_present_bool <;> rfl
  have hFflag : (reparsedRecord r).image_present_flag =
      some r.image_present_flag := by
    simp only [reparsedRecord, kvLines, List.foldl_cons, List.foldl_nil,
      show stripStr "Doc Num".data = "Doc Num".data from by decide,
      show stripStr "Corner of Section".data =
        "Corner of Section".data from by decide,
      show stripStr "Township (value)".data =
        "Township (value)".data from by decide,
      show stripStr "Range (value)".data =
        "Range (value)".data from by decide,
      show stripStr "County (value)".data =
        "County (value)".data from by decide,
      show stripStr "Image present (bool)".data =
        "Image present (bool)".data from by decide,
      show stripStr "Image present (Y/N)".data =
        "Image present (Y/N)".data from by decide,
      show stripStr "Township options".data =
        "Township options".data from by decide,
      show stripStr "Range options".data =
        "Range options".data from by decide,
      show stripStr "County options".data =
        "County options".data from by decide,
      updateRecord_doc_num, updateRecord_corner, updateRecord_township,
      updateRecord_range, updateRecord_county, updateRecord_bool,
      updateRecord_flag, updateRecord_topts, updateRecord_ropts,
      updateRecord_copts]
    rw [hflag]
    cases hb : r.image_present_bool <;> rfl
  refine ⟨hparse, hFbool, hFflag, ?_⟩
  rw [hFbool, hFflag]
  obtain ⟨hYiff, _⟩ := hpartA src fn r hproc
  constructor
  · intro hf
    rw [hYiff.mp (Option.some.inj hf)]
  · intro hbt
    rw [hYiff.mpr (Option.some.inj hbt)]

/-- The record the session extracts from `c7doc`. -/
def c3rec : ExtractionResult :=
  { filename := "a.pdf".data, doc_num := "42".data,
    corner_of_section := [], township := [], range := [], county := [],
    image_present_bool := false, image_present_flag := "N".data,
    township_options := [], range_options := [], county_options := [] }

/-- Witness for the amended C3 at `c7doc` and a clean timestamp. -/
theorem flag_bool_consistency_amended_witness :
    parse_batch_output
      (console_output "2025-10-12 01:02:03".data c3rec) =
      [reparsedRecord c3rec] ∧
    (reparsedRecord c3rec).image_present_bool = some false ∧
    (reparsedRecord c3rec).image_present_flag = some "N".data := by
  have h := flag_bool_consistency_amended.2 "2025-10-12 01:02:03".data
    (some c7doc) "a.pdf".data c3rec (by rfl)
    (by unfold CleanForReparse CleanVal; decide)
  exact ⟨h.1, h.2.1, h.2.2.1⟩

/-- An option value carrying an embedded newline followed by a forged
boolean line. -/
def evilOpt : Str := "x\nImage present (bool): True".data

/-- Document whose County choice options contain the forged text. -/
def evilDoc : Document := mkFormDoc
  [[(kT, .str fCounty), (kOptK, .arr [.str evilOpt])]]

/-- The (internally consistent) record the session extracts from
`evilDoc`: no image, flag `N`, and the forged text as the only County
option. -/
def evilRec : ExtractionResult :=
  { filename := "f.pdf".data, doc_num := [], corner_of_section := [],
    township := [], range := [], county := [],
    image_present_bool := false, image_present_flag := "N".data,
    township_options := [], range_options := [],
    county_options := [evilOpt] }

/-- The record re-parsed from `evilRec`'s console output: the forged
physical line overwrites the boolean after the genuine lines, leaving
an inconsistent pair. -/
def evilParsed : ParsedRecord :=
  { filename := "f.pdf".data, doc_num := some [],
    corner_of_section := some [], township := some [], range := some [],
    county := some [], image_present_bool := some true,
    image_present_flag := some "N".data, township_options := some [],
    range_options := some [], county_options := some "x".data }

/-- Counterexample to C3 as stated: `process_pdf` produces a consistent
record (`flag = N`, `bool = false`), but re-parsing its console output
yields a record whose boolean is true while its flag is still `N` — the
embedded newline in a County option forges an extra
`Image present (bool): True` physical line that the parser reads after
the genuine boolean line. -/
theorem flag_bool_reparse_counterexample :
    process_pdf (some evilDoc) "f.pdf".data = some evilRec ∧
    evilRec.image_present_flag = "N".data ∧
    evilRec.image_present_bool = false ∧
    parse_batch_output (console_output "ts".data evilRec) =
      [evilParsed] ∧
    evilParsed.image_present_bool = some true ∧
    evilParsed.image_present_flag = some "N".data :=
  ⟨rfl, rfl, rfl, rfl, rfl, rfl⟩

end PdfExtract
